import Mathlib

/-!
Shallow embedding of the Minesweeper board engine (`board.py`).

Python integers are modelled as `Int` (targets coming from user input) or
`Nat` (internally generated ids and counters, which are never negative in the
source).  Python list indexing `xs[i]` is modelled by `pyIdx`, which captures
CPython semantics: non-negative indices below the length, negative indices
wrapping from the end, and `IndexError` otherwise.  Fallible operations
return `PyResult`, which carries the state at the moment an exception
propagates (the source mutates `self` in place, so the state at a raise is
whatever has been written so far).
-/

/-- Tile statuses, mirroring the `TILE_STATES` list of `board.py`
(`unchecked`, `checked`, `flagged`, `question`). -/
inductive TileStatus where
  | unchecked
  | checked
  | flagged
  | question
deriving DecidableEq, Repr

/-- One tile of the grid, mirroring class `Tile` of `board.py` with its
class-attribute defaults. -/
structure Tile where
  id : Nat := 0
  mine : Bool := false
  pressed : Bool := false
  status : TileStatus := TileStatus.unchecked
  adjacent_mines : Nat := 0
  row : Nat := 0
  col : Nat := 0
deriving DecidableEq, Repr

/-- The neighbor dictionary `Board.neighbors` (`dict[int, list[int]]`),
modelled as an association list in insertion order. -/
abbrev NeighborMap := List (Nat × List Nat)

/-- Mirrors class `Board` of `board.py` (the fields set in `__init__`). -/
structure Board where
  width : Nat
  height : Nat
  mine_count : Nat
  tiles : List Tile := []
  tiles_with_mines : List Nat := []
  neighbors : NeighborMap := []
  valid : Bool := true
  user_won : Bool := false
  tile_pressed : Bool := false
  current_pressed_tile : Int := -1
deriving DecidableEq, Repr

/-- Result of running a Python method that may raise: either a normal return
or a propagating exception; both carry the (possibly mutated) state. -/
inductive PyResult (α : Type) where
  | ok (val : α)
  | exn (err : String) (val : α)
deriving DecidableEq, Repr

/-- The state held in a `PyResult`, whether or not an exception propagated. -/
def PyResult.get {α : Type} : PyResult α → α
  | PyResult.ok a => a
  | PyResult.exn _ a => a

/-- True when no exception propagated. -/
def PyResult.isOk {α : Type} : PyResult α → Bool
  | PyResult.ok _ => true
  | PyResult.exn _ _ => false

/-- CPython list-index resolution for `xs[i]` on a list of length `n`:
`0 ≤ i < n` uses `i`, `-n ≤ i < 0` wraps to `n + i`, anything else raises
`IndexError` (modelled as `none`). -/
def pyIdx (n : Nat) (i : Int) : Option Nat :=
  if 0 ≤ i ∧ i < (n : Int) then some i.toNat
  else if -(n : Int) ≤ i ∧ i < 0 then some ((n : Int) + i).toNat
  else none

/-- Dictionary lookup `m[k]` on the neighbor map. -/
def nmFind (m : NeighborMap) (k : Nat) : Option (List Nat) :=
  (m.find? (fun p => p.1 == k)).map (fun p => p.2)

/-- Dictionary store `m[k] = v`: overwrite in place if the key exists,
otherwise append (CPython dicts keep insertion order). -/
def nmInsert (m : NeighborMap) (k : Nat) (v : List Nat) : NeighborMap :=
  if m.any (fun p => p.1 == k) then
    m.map (fun p => if p.1 == k then (k, v) else p)
  else m ++ [(k, v)]

/-- Replace the tile at index `i` by `f` of the old tile (in-place mutation of
a list element in the source; callers only reach this with `i` in range). -/
def modifyTile (ts : List Tile) (i : Nat) (f : Tile → Tile) : List Tile :=
  match ts.get? i with
  | some t => ts.set i (f t)
  | none => ts

/-- Status of the tile at index `i` (defaulting on an out-of-range index;
every use in the theorems is guarded by an in-range hypothesis). -/
def tileStatusAt (ts : List Tile) (i : Nat) : TileStatus :=
  match ts.get? i with
  | some t => t.status
  | none => TileStatus.unchecked

/-- Mine flag of the tile at index `i` (defaulting out of range). -/
def tileMineAt (ts : List Tile) (i : Nat) : Bool :=
  match ts.get? i with
  | some t => t.mine
  | none => false

/-- `adjacent_mines` of the tile at index `i` (defaulting out of range). -/
def tileAdjAt (ts : List Tile) (i : Nat) : Nat :=
  match ts.get? i with
  | some t => t.adjacent_mines
  | none => 0

/-- Status of tile `i` on a board. -/
def statusAt (b : Board) (i : Nat) : TileStatus := tileStatusAt b.tiles i

/-- The list of all tile statuses of a board, in tile order. -/
def statusesOf (b : Board) : List TileStatus := b.tiles.map Tile.status

/-- Mirrors `MAX_MINE_SHARE = 0.8` of `board.py`, as the exact rational 4/5.
The source compares `mines / (width*height) > 0.8` in binary floating point;
for every denominator reachable here the two comparisons agree, because the
distance from any fraction `m/t` to 4/5 is far larger than the rounding
error of a correctly rounded double division. -/
def MAX_MINE_SHARE_NUM : Nat := 4

/-- Mirrors `Board.__init__`: failure (`ZeroDivisionError` on an empty grid,
`ValueError` when the mine share exceeds `MAX_MINE_SHARE`) means the board is
not constructed, so this returns `Except` rather than `PyResult`. -/
def initBoard (width height mines : Nat) : Except String Board :=
  if width * height = 0 then Except.error "ZeroDivisionError"
  else if 5 * mines > MAX_MINE_SHARE_NUM * (width * height) then
    Except.error "ValueError: mines cannot exceed 80.0% of total board tiles!"
  else Except.ok { width := width, height := height, mine_count := mines }

/-- Mirrors `Board.get_tile_id_by_row_and_col`. -/
def get_tile_id_by_row_and_col (b : Board) (row col : Int) : Option Nat :=
  if 0 ≤ row ∧ row < (b.height : Int) ∧ 0 ≤ col ∧ col < (b.width : Int) then
    some (row * (b.width : Int) + col).toNat
  else none

/-- Mirrors `Board._release_tiles`. -/
def release_tiles (b : Board) : Board :=
  { b with tile_pressed := false, current_pressed_tile := -1,
           tiles := b.tiles.map (fun t => { t with pressed := false }) }

/-- Mirrors `Board._press_tile`. -/
def press_tile (b : Board) (idx : Nat) : Board :=
  let b := release_tiles b
  { b with tiles := modifyTile b.tiles idx (fun t => { t with pressed := true }),
           tile_pressed := true }

/-- Mirrors `Board._flag_tile`: `unchecked → flagged → question → unchecked`,
any other status (i.e. `checked`) falls through every branch unchanged. -/
def flag_tile (b : Board) (idx : Nat) : Board :=
  match b.tiles.get? idx with
  | none => b
  | some t =>
    if t.status = TileStatus.unchecked then
      { b with tiles := b.tiles.set idx { t with status := TileStatus.flagged } }
    else if t.status = TileStatus.flagged then
      { b with tiles := b.tiles.set idx { t with status := TileStatus.question } }
    else if t.status = TileStatus.question then
      { b with tiles := b.tiles.set idx { t with status := TileStatus.unchecked } }
    else b

/-- Mirrors `Board._check_validity`: scan all tiles, turn `valid` off if any
mine tile has status checked. -/
def check_validity (b : Board) : Board :=
  if b.tiles.any (fun t => t.mine && t.status == TileStatus.checked) then
    { b with valid := false }
  else b

/-- Mirrors the loop of `Board._check_win`: returns `true` when every id in
`tiles_with_mines` points at a flagged tile, raising on a bad id. -/
def checkWinLoop (ts : List Tile) : List Nat → PyResult Bool
  | [] => PyResult.ok true
  | m :: rest =>
    match ts.get? m with
    | none => PyResult.exn "IndexError" false
    | some t =>
      if t.status ≠ TileStatus.flagged then PyResult.ok false
      else checkWinLoop ts rest

/-- Mirrors `Board._check_win` (dead code in the source: no caller ever
invokes it): if every mine tile is flagged, set `user_won` and reveal the
remaining unchecked non-mine tiles. -/
def check_win (b : Board) : PyResult Board :=
  match checkWinLoop b.tiles b.tiles_with_mines with
  | PyResult.exn e _ => PyResult.exn e b
  | PyResult.ok false => PyResult.ok b
  | PyResult.ok true =>
    PyResult.ok { b with
      user_won := true,
      tiles := b.tiles.map (fun t =>
        if t.mine = false ∧ t.status = TileStatus.unchecked then
          { t with status := TileStatus.checked }
        else t) }

/-- Mirrors `maximum_iters = 1e7` of `_find_zero_adjacent_neighboring_tiles`
(compared against an integer counter, so exactly 10^7). -/
def MAXIMUM_ITERS : Nat := 10000000

/-- One neighbor visit inside the flood-fill pass: skip mines and
already-checked tiles, otherwise check the tile and, if its
`adjacent_mines` is zero, add it to the next frontier. -/
def processNeighbor (ts : List Tile) (temp : List Nat) (nb : Nat) :
    PyResult (List Tile × List Nat) :=
  match ts.get? nb with
  | none => PyResult.exn "IndexError" (ts, temp)
  | some t =>
    if t.mine then PyResult.ok (ts, temp)
    else if t.status = TileStatus.checked then PyResult.ok (ts, temp)
    else
      let ts' := ts.set nb { t with status := TileStatus.checked }
      if t.adjacent_mines = 0 then PyResult.ok (ts', temp ++ [nb])
      else PyResult.ok (ts', temp)

/-- Visit the neighbor list of one frontier tile, left to right. -/
def processNeighbors (ts : List Tile) (temp : List Nat) :
    List Nat → PyResult (List Tile × List Nat)
  | [] => PyResult.ok (ts, temp)
  | nb :: rest =>
    match processNeighbor ts temp nb with
    | PyResult.ok (ts', temp') => processNeighbors ts' temp' rest
    | PyResult.exn e st => PyResult.exn e st

/-- Visit one frontier tile with a non-negative id: `self.neighbors[tile_id]`
raises `KeyError` when the id has no entry (mines never get one).  This is
the specialization of `processTileI` below to `Nat` keys; `nmFindI_natCast`
relates the two. -/
def processTile (nbrs : NeighborMap) (ts : List Tile) (temp : List Nat)
    (tid : Nat) : PyResult (List Tile × List Nat) :=
  match nmFind nbrs tid with
  | none => PyResult.exn "KeyError" (ts, temp)
  | some l => processNeighbors ts temp l

/-- One pass of the `while` loop over a frontier of non-negative ids:
visit every tile of the current frontier, accumulating the next frontier in
`temp`.  Specialization of `floodPassI` below (`floodPassI_natCast`). -/
def floodPass (nbrs : NeighborMap) (ts : List Tile) (temp : List Nat) :
    List Nat → PyResult (List Tile × List Nat)
  | [] => PyResult.ok (ts, temp)
  | tid :: rest =>
    match processTile nbrs ts temp tid with
    | PyResult.ok (ts', temp') => floodPass nbrs ts' temp' rest
    | PyResult.exn e st => PyResult.exn e st

/-- The `while True` loop of `_find_zero_adjacent_neighboring_tiles` over
frontiers of non-negative ids.  The program's loop is `floodLoopI` below,
whose frontier holds raw Python ints because the initial frontier is the
raw `tile_id` received by `_click_tile`; on non-negative frontiers the two
agree (`floodLoopI_natCast`).  `fuel` is the number of passes still allowed
before the iteration counter reaches `maximum_iters` and the
`RuntimeWarning` is raised. -/
def floodLoop (nbrs : NeighborMap) : Nat → List Tile → List Nat →
    PyResult (List Tile)
  | _, ts, [] => PyResult.ok ts
  | 0, ts, _ :: _ => PyResult.exn "RuntimeWarning" ts
  | fuel + 1, ts, frontier =>
    match floodPass nbrs ts [] frontier with
    | PyResult.ok (ts', temp) => floodLoop nbrs fuel ts' temp
    | PyResult.exn e (ts', _) => PyResult.exn e ts'

/-- `self.neighbors[key]` with a raw Python int key.  `_map_neighbors` only
ever inserts keys `tile.id`, which are non-negative, so dictionary lookup
(which, unlike list indexing, never wraps) misses every negative key. -/
def nmFindI (m : NeighborMap) (k : Int) : Option (List Nat) :=
  if 0 ≤ k then nmFind m k.toNat else none

/-- Visit one frontier tile whose id is a raw Python int (the initial
`tiles_to_check = [tile_id]` can hold a negative id): `self.neighbors[tile_id]`
raises `KeyError` when the id has no entry. -/
def processTileI (nbrs : NeighborMap) (ts : List Tile) (temp : List Nat)
    (tid : Int) : PyResult (List Tile × List Nat) :=
  match nmFindI nbrs tid with
  | none => PyResult.exn "KeyError" (ts, temp)
  | some l => processNeighbors ts temp l

/-- One pass of the `while` loop over a frontier of raw int ids. -/
def floodPassI (nbrs : NeighborMap) (ts : List Tile) (temp : List Nat) :
    List Int → PyResult (List Tile × List Nat)
  | [] => PyResult.ok (ts, temp)
  | tid :: rest =>
    match processTileI nbrs ts temp tid with
    | PyResult.ok (ts', temp') => floodPassI nbrs ts' temp' rest
    | PyResult.exn e st => PyResult.exn e st

/-- The `while True` loop of `_find_zero_adjacent_neighboring_tiles` with the
frontier as a list of raw Python int ids: the initial frontier is the raw
`tile_id` argument, and each later frontier consists of the (non-negative)
ids appended to `temp_list` from neighbor lists.  `fuel` is the number of
passes still allowed before the iteration counter reaches `maximum_iters`
and the `RuntimeWarning` is raised. -/
def floodLoopI (nbrs : NeighborMap) : Nat → List Tile → List Int →
    PyResult (List Tile)
  | _, ts, [] => PyResult.ok ts
  | 0, ts, _ :: _ => PyResult.exn "RuntimeWarning" ts
  | fuel + 1, ts, frontier =>
    match floodPassI nbrs ts [] frontier with
    | PyResult.ok (ts', temp) =>
      floodLoopI nbrs fuel ts' (temp.map (fun n => (n : Int)))
    | PyResult.exn e (ts', _) => PyResult.exn e ts'

/-- Mirrors `Board._find_zero_adjacent_neighboring_tiles`: breadth-first
flood fill starting from the frontier `[tile_id]`, where `tile_id` is the
raw (possibly negative) int that `_click_tile` received.  The counter starts
at 0 and is incremented before the `>= maximum_iters` test, so exactly
`MAXIMUM_ITERS - 1` passes can run. -/
def find_zero_adjacent_neighboring_tiles (b : Board) (tile_id : Int) :
    PyResult Board :=
  match floodLoopI b.neighbors (MAXIMUM_ITERS - 1) b.tiles [tile_id] with
  | PyResult.ok ts => PyResult.ok { b with tiles := ts }
  | PyResult.exn e ts => PyResult.exn e { b with tiles := ts }

/-- Mirrors `Board._click_tile`, which receives the raw `tile_id`: release
pressed tiles, check the clicked tile (the `self.tiles[tile_id]` reads and
write are list accesses, so a negative in-range id wraps), flood fill when
it has zero adjacent mines and is not a mine — passing the raw `tile_id` on,
where a negative id hits the neighbors dictionary and raises `KeyError` —
and finally rescan for validity (skipped when an exception propagates). -/
def click_tile (b : Board) (tile_id : Int) : PyResult Board :=
  let b := release_tiles b
  match pyIdx b.tiles.length tile_id with
  | none => PyResult.exn "IndexError" b
  | some idx =>
    match b.tiles.get? idx with
    | none => PyResult.exn "IndexError" b
    | some t =>
      let b := { b with tiles := b.tiles.set idx { t with status := TileStatus.checked } }
      if t.mine then PyResult.ok (check_validity b)
      else if t.adjacent_mines = 0 then
        match find_zero_adjacent_neighboring_tiles b tile_id with
        | PyResult.ok b' => PyResult.ok (check_validity b')
        | PyResult.exn e b' => PyResult.exn e b'
      else PyResult.ok (check_validity b)

/-- The four entries of the `TILE_ACTIONS` list. -/
inductive TAction where
  | press
  | release
  | click
  | flag
deriving DecidableEq, Repr

/-- The two ways `tile_action` can be targeted through its keyword
arguments: a direct `tile_id`, or a `row`/`col` pair. -/
inductive Target where
  | byId (i : Int)
  | byRowCol (row col : Int)
deriving DecidableEq, Repr

/-- Mirrors `Board.tile_action`.  `release` ignores the target entirely.  A
`row`/`col` pair that maps to no tile is a silent no-op.  A direct `tile_id`
is used as a raw Python list index, so ids at or above `W*H` (or below
`-W*H`) raise `IndexError` from the guard-clause read of
`self.tiles[tile_id].status`, and negative ids wrap around.  The guard makes
every non-flag action on a non-unchecked tile, and every action on an
invalid or won board, a no-op.  `_press_tile` and `_flag_tile` receive the
raw id but use it only for `self.tiles[tile_id]` list accesses, which
resolve to the same element as the canonical index `idx`, so they are
dispatched with `idx`; `_click_tile` also feeds the raw id into the
neighbors dictionary, so it must receive the raw `i`. -/
def tile_action (b : Board) (action : TAction) (tgt : Target) :
    PyResult Board :=
  if action = TAction.release then PyResult.ok (release_tiles b)
  else
    let resolved : Option Int :=
      match tgt with
      | Target.byId i => some i
      | Target.byRowCol r c =>
        match get_tile_id_by_row_and_col b r c with
        | none => none
        | some n => some ((n : Nat) : Int)
    match resolved with
    | none => PyResult.ok b
    | some i =>
      match pyIdx b.tiles.length i with
      | none => PyResult.exn "IndexError" b
      | some idx =>
        match b.tiles.get? idx with
        | none => PyResult.exn "IndexError" b
        | some t =>
          if (t.status ≠ TileStatus.unchecked ∧ action ≠ TAction.flag) ∨
              b.valid = false ∨ b.user_won = true then PyResult.ok b
          else
            match action with
            | TAction.press => PyResult.ok (press_tile b idx)
            | TAction.click => click_tile b i
            | TAction.flag => PyResult.ok (flag_tile b idx)
            | TAction.release => PyResult.ok b

/-- Run a sequence of actions, threading the board state through (the state
carried by an exception is whatever had been written before the raise). -/
def runActions (b : Board) : List (TAction × Target) → Board
  | [] => b
  | (a, t) :: rest => runActions (tile_action b a t).get rest

/-- Mirrors `Board.clear_board`. -/
def clear_board (b : Board) : Board :=
  { b with tiles := [], tiles_with_mines := [], neighbors := [] }

/-- The loop body of `Board._create_tiles`: `k` tiles remain, the next tile
gets id `tile_id`; the column counter resets (and the row advances) when it
passes `width - 1`. -/
def createTilesAux (width : Nat) : Nat → Nat → Nat → Nat → List Tile
  | 0, _, _, _ => []
  | k + 1, tile_id, row_count, col_count =>
    if col_count > width - 1 then
      { id := tile_id, row := row_count + 1, col := 0 } ::
        createTilesAux width k (tile_id + 1) (row_count + 1) 1
    else
      { id := tile_id, row := row_count, col := col_count } ::
        createTilesAux width k (tile_id + 1) row_count (col_count + 1)

/-- Mirrors `Board._create_tiles` (appends to the current tile list, which
`setup` has just cleared). -/
def create_tiles (b : Board) : Board :=
  { b with tiles := b.tiles ++ createTilesAux b.width (b.width * b.height) 0 0 0 }

/-- The population `random.sample` draws from in `Board._assign_mines`:
`range(0, len(self.tiles) - 1)`, i.e. the ids `0 .. len-2`.  (The id
`len - 1` is absent.) -/
def sample_population (numTiles : Nat) : List Nat := List.range (numTiles - 1)

/-- The guarantee `random.sample(population, k)` gives about its result: `k`
distinct elements, all drawn from the population.  The sampled list itself
is a parameter of the embedding, since it is the only random input. -/
def IsSampleOf (numTiles k : Nat) (s : List Nat) : Prop :=
  s.Nodup ∧ s.length = k ∧ ∀ x ∈ s, x ∈ sample_population numTiles

/-- Mirrors `Board._assign_mines` with the result of `random.sample` passed
in as `sample`: record it in `tiles_with_mines` and set the mine flag of
every tile whose id it contains. -/
def assign_mines (b : Board) (sample : List Nat) : Board :=
  { b with tiles_with_mines := sample,
           tiles := b.tiles.map (fun t =>
             if t.id ∈ sample then { t with mine := true } else t) }

/-- Mirrors the `SHIFT` table of `board.py` (row, col offsets of the eight
neighbors, in table order). -/
def SHIFT : List (Int × Int) :=
  [(-1, -1), (-1, 0), (-1, 1), (0, -1), (0, 1), (1, -1), (1, 0), (1, 1)]

/-- The in-bounds neighbor ids of the cell at (`row`, `col`), in `SHIFT`
order, exactly as the inner loop of `Board._map_neighbors` computes them
(the bounds test makes `get_tile_id_by_row_and_col` always succeed). -/
def neighborIdsOf (width height : Nat) (row col : Nat) : List Nat :=
  SHIFT.filterMap (fun s =>
    let row_check : Int := (row : Int) + s.1
    let col_check : Int := (col : Int) + s.2
    if 0 ≤ row_check ∧ row_check < (height : Int) ∧
        0 ≤ col_check ∧ col_check < (width : Int) then
      some (row_check * (width : Int) + col_check).toNat
    else none)

/-- One iteration of the `for tile in self.tiles` loop of
`Board._map_neighbors`, acting on the tile at index `i`: skip mines,
otherwise record the neighbor list (appending to any existing entry, after
creating an empty one if absent) and store the count of neighbors that are
in `tiles_with_mines` as `adjacent_mines`. -/
def mapNeighborsStep (width height : Nat) (mines : List Nat)
    (st : List Tile × NeighborMap) (i : Nat) : List Tile × NeighborMap :=
  match st.1.get? i with
  | none => st
  | some t =>
    if t.mine then st
    else
      let existing := (nmFind st.2 t.id).getD []
      let lst := existing ++ neighborIdsOf width height t.row t.col
      let nm' := nmInsert st.2 t.id lst
      let adj := (lst.filter (fun nb => decide (nb ∈ mines))).length
      (st.1.set i { t with adjacent_mines := adj }, nm')

/-- Mirrors `Board._map_neighbors`. -/
def map_neighbors (b : Board) : Board :=
  let st := (List.range b.tiles.length).foldl
    (mapNeighborsStep b.width b.height b.tiles_with_mines) (b.tiles, b.neighbors)
  { b with tiles := st.1, neighbors := st.2 }

/-- Mirrors `Board.setup`, with the random sample as a parameter. -/
def setup (b : Board) (sample : List Nat) : Board :=
  let b := clear_board b
  let b := create_tiles b
  let b := assign_mines b sample
  let b := map_neighbors b
  { b with valid := true }

/-- Mirrors `Board.reset_mines`, with the random sample as a parameter. -/
def reset_mines (b : Board) (sample : List Nat) : Board :=
  let b := { b with
    tiles := b.tiles.map (fun t =>
      { t with mine := false, status := TileStatus.unchecked, adjacent_mines := 0 }),
    neighbors := [] }
  let b := assign_mines b sample
  map_neighbors b

/-- A fresh board of the given size with the given mine sample, as produced
by constructing a `Board` and calling `setup` (the constructor's ratio check
is `initBoard`; `setup` itself never validates). -/
def setupWith (w h : Nat) (sample : List Nat) : Board :=
  setup { width := w, height := h, mine_count := sample.length } sample

/-- Overwrite every tile's status by `sts` of its id, leaving everything
else in place: the general form of a mid-game board, since play only ever
rewrites statuses. -/
def withStatuses (b : Board) (sts : Nat → TileStatus) : Board :=
  { b with tiles := b.tiles.map (fun t => { t with status := sts t.id }) }


/-! ### Basic lemmas about the action machinery -/

theorem pyIdx_nat (n i : Nat) (h : i < n) : pyIdx n (i : Int) = some i := by
  simp [pyIdx]
  omega

theorem pyIdx_oob (n : Nat) (i : Int) (h : (n : Int) ≤ i ∨ i < -(n : Int)) :
    pyIdx n i = none := by
  simp only [pyIdx]
  rw [if_neg, if_neg] <;> omega

theorem pyIdx_neg (n : Nat) (i : Int) (h0 : -(n : Int) ≤ i) (h1 : i < 0) :
    pyIdx n i = some ((n : Int) + i).toNat := by
  simp only [pyIdx]
  rw [if_neg, if_pos] <;> omega

/-- Looking up a non-negative int key in the neighbors dictionary is the
ordinary lookup at the corresponding `Nat`. -/
theorem nmFindI_natCast (m : NeighborMap) (k : Nat) :
    nmFindI m (k : Int) = nmFind m k := by
  unfold nmFindI
  rw [if_pos (Int.natCast_nonneg k), Int.toNat_natCast]

/-- On a frontier of non-negative ids, a pass over raw int keys is the pass
over the corresponding `Nat` keys. -/
theorem floodPassI_natCast (nbrs : NeighborMap) :
    ∀ (fr : List Nat) (ts : List Tile) (temp : List Nat),
      floodPassI nbrs ts temp (fr.map (fun n => (n : Int))) =
        floodPass nbrs ts temp fr := by
  intro fr
  induction fr with
  | nil => intro ts temp; rfl
  | cons n rest ih =>
    intro ts temp
    show (match processTileI nbrs ts temp (n : Int) with
          | PyResult.ok (ts', temp') =>
            floodPassI nbrs ts' temp' (rest.map (fun n => (n : Int)))
          | PyResult.exn e st => PyResult.exn e st) = _
    have hpt : processTileI nbrs ts temp (n : Int) = processTile nbrs ts temp n := by
      unfold processTileI processTile
      rw [nmFindI_natCast]
    rw [hpt]
    unfold floodPass
    cases processTile nbrs ts temp n with
    | ok p => cases p with | mk ts' temp' => exact ih ts' temp'
    | exn e st => rfl

/-- Every frontier the loop ever sees after the initial one consists of
non-negative ids, so on such frontiers the raw-int loop agrees with the
`Nat`-key loop. -/
theorem floodLoopI_natCast (nbrs : NeighborMap) :
    ∀ (fuel : Nat) (ts : List Tile) (fr : List Nat),
      floodLoopI nbrs fuel ts (fr.map (fun n => (n : Int))) =
        floodLoop nbrs fuel ts fr := by
  intro fuel
  induction fuel with
  | zero =>
    intro ts fr
    cases fr with
    | nil => rfl
    | cons a rest => rfl
  | succ fuel ih =>
    intro ts fr
    cases fr with
    | nil => rfl
    | cons a rest =>
      show (match floodPassI nbrs ts [] ((a :: rest).map (fun n => (n : Int))) with
            | PyResult.ok (ts', temp) =>
              floodLoopI nbrs fuel ts' (temp.map (fun n => (n : Int)))
            | PyResult.exn e (ts', _) => PyResult.exn e ts') = _
      rw [floodPassI_natCast]
      unfold floodLoop
      cases floodPass nbrs ts [] (a :: rest) with
      | ok p => cases p with | mk ts' temp => exact ih ts' temp
      | exn e st => rfl

theorem release_tiles_length (b : Board) :
    (release_tiles b).tiles.length = b.tiles.length := by
  simp [release_tiles]

theorem release_tiles_get? (b : Board) (i : Nat) :
    (release_tiles b).tiles.get? i =
      (b.tiles.get? i).map (fun t => { t with pressed := false }) := by
  simp [release_tiles, List.get?_map]

theorem statusesOf_release (b : Board) :
    statusesOf (release_tiles b) = statusesOf b := by
  simp [release_tiles, statusesOf]

theorem statusAt_release (b : Board) (i : Nat) :
    statusAt (release_tiles b) i = statusAt b i := by
  simp only [statusAt, tileStatusAt, release_tiles_get? b i]
  cases b.tiles.get? i <;> rfl

theorem release_tiles_fields (b : Board) :
    (release_tiles b).valid = b.valid ∧ (release_tiles b).user_won = b.user_won ∧
    (release_tiles b).width = b.width ∧ (release_tiles b).height = b.height ∧
    (release_tiles b).neighbors = b.neighbors ∧
    (release_tiles b).tiles_with_mines = b.tiles_with_mines ∧
    (release_tiles b).current_pressed_tile = -1 := by
  simp [release_tiles]

theorem statusesOf_modifyTile (ts : List Tile) (i : Nat) (f : Tile → Tile)
    (hf : ∀ t, (f t).status = t.status) :
    (modifyTile ts i f).map Tile.status = ts.map Tile.status := by
  simp only [modifyTile]
  cases h : ts.get? i with
  | none => rfl
  | some t =>
    apply List.ext_get?
    intro j
    by_cases hj : i = j
    · subst hj
      rw [List.get?_map, List.get?_map, List.get?_set_eq, h]
      simp [hf]
    · rw [List.get?_map, List.get?_map, List.get?_set_ne _ _ hj]

theorem statusesOf_press (b : Board) (i : Nat) :
    statusesOf (press_tile b i) = statusesOf b := by
  simp only [press_tile, statusesOf]
  rw [statusesOf_modifyTile _ i (fun t => { t with pressed := true }) (fun t => rfl)]
  exact statusesOf_release b

theorem check_validity_tiles (b : Board) : (check_validity b).tiles = b.tiles := by
  simp only [check_validity]
  split <;> rfl

theorem check_validity_fields (b : Board) :
    (check_validity b).user_won = b.user_won ∧
    (check_validity b).current_pressed_tile = b.current_pressed_tile := by
  simp only [check_validity]
  split <;> exact ⟨rfl, rfl⟩

theorem flag_tile_checked (b : Board) (i : Nat) (h : statusAt b i = TileStatus.checked) :
    flag_tile b i = b := by
  simp only [flag_tile]
  cases hg : b.tiles.get? i with
  | none => rfl
  | some t =>
    have ht : t.status = TileStatus.checked := by
      unfold statusAt tileStatusAt at h
      rw [hg] at h
      exact h
    simp [ht]

theorem flag_tile_get? (b : Board) (i : Nat) (t : Tile) (hg : b.tiles.get? i = some t) :
    (flag_tile b i).tiles.get? i = some { t with status :=
      if t.status = TileStatus.unchecked then TileStatus.flagged
      else if t.status = TileStatus.flagged then TileStatus.question
      else if t.status = TileStatus.question then TileStatus.unchecked
      else t.status } := by
  have hg2 : b.tiles[i]? = some t := by rw [← List.get?_eq_getElem?]; exact hg
  simp only [flag_tile, hg]
  cases t with
  | mk tid tm tp tst ta tr tc =>
    cases tst <;> simp [List.getElem?_set_self', hg2]

theorem flag_tile_fields (b : Board) (i : Nat) :
    (flag_tile b i).valid = b.valid ∧ (flag_tile b i).user_won = b.user_won ∧
    (flag_tile b i).tiles.length = b.tiles.length ∧
    (flag_tile b i).current_pressed_tile = b.current_pressed_tile := by
  simp only [flag_tile]
  cases b.tiles.get? i with
  | none => exact ⟨rfl, rfl, rfl, rfl⟩
  | some t =>
    dsimp only
    split_ifs <;> simp [List.length_set]

theorem tile_action_flag_eq (b : Board) (i : Nat) (hi : i < b.tiles.length)
    (hv : b.valid = true) (hw : b.user_won = false) :
    tile_action b TAction.flag (Target.byId (i : Int)) = PyResult.ok (flag_tile b i) := by
  obtain ⟨t, hg⟩ : ∃ t, b.tiles.get? i = some t := by
    cases h : b.tiles.get? i with
    | none => exact absurd (List.get?_eq_none.mp h) (by omega)
    | some t => exact ⟨t, rfl⟩
  simp only [tile_action, pyIdx_nat b.tiles.length i hi, hg]
  rw [if_neg (by simp), if_neg]
  simp [hv, hw]

/-- The status transition a single flag action performs on its target. -/
def flagNext : TileStatus → TileStatus
  | TileStatus.unchecked => TileStatus.flagged
  | TileStatus.flagged => TileStatus.question
  | TileStatus.question => TileStatus.unchecked
  | TileStatus.checked => TileStatus.checked

/-- The board after one flag action on tile `i` through the public entry
point (the state is the carried one whether or not an exception is raised;
in range none is). -/
def flagAction (b : Board) (i : Nat) : Board :=
  (tile_action b TAction.flag (Target.byId (i : Int))).get

theorem statusAt_flag_tile (b : Board) (i : Nat) (hi : i < b.tiles.length) :
    statusAt (flag_tile b i) i = flagNext (statusAt b i) := by
  obtain ⟨t, hg⟩ : ∃ t, b.tiles.get? i = some t := by
    cases h : b.tiles.get? i with
    | none => exact absurd (List.get?_eq_none.mp h) (by omega)
    | some t => exact ⟨t, rfl⟩
  have h2 := flag_tile_get? b i t hg
  simp only [statusAt, tileStatusAt, h2, hg]
  cases t with
  | mk tid tm tp tst ta tr tc => cases tst <;> rfl

theorem flagAction_eq (b : Board) (i : Nat) (hi : i < b.tiles.length)
    (hv : b.valid = true) (hw : b.user_won = false) :
    flagAction b i = flag_tile b i := by
  rw [flagAction, tile_action_flag_eq b i hi hv hw]
  rfl

theorem flagAction_step (b : Board) (i : Nat) (hi : i < b.tiles.length)
    (hv : b.valid = true) (hw : b.user_won = false) :
    (flagAction b i).valid = true ∧ (flagAction b i).user_won = false ∧
    (flagAction b i).tiles.length = b.tiles.length ∧
    statusAt (flagAction b i) i = flagNext (statusAt b i) := by
  rw [flagAction_eq b i hi hv hw]
  obtain ⟨f1, f2, f3, _⟩ := flag_tile_fields b i
  exact ⟨f1.trans hv, f2.trans hw, f3, statusAt_flag_tile b i hi⟩

/-- C9: on a live board, three flag actions on an Unchecked tile move its
status through Flagged and Question back to Unchecked, a fourth starts the
cycle again (period exactly 3, witnessed by the distinct intermediate
statuses), and a flag action on a Checked tile returns the board unchanged. -/
theorem c9_flag_cycle (b : Board) (i : Nat) (hi : i < b.tiles.length)
    (hv : b.valid = true) (hw : b.user_won = false)
    (hs : statusAt b i = TileStatus.unchecked) :
    statusAt (flagAction b i) i = TileStatus.flagged ∧
    statusAt (flagAction (flagAction b i) i) i = TileStatus.question ∧
    statusAt (flagAction (flagAction (flagAction b i) i) i) i = TileStatus.unchecked ∧
    statusAt (flagAction (flagAction (flagAction (flagAction b i) i) i) i) i =
      TileStatus.flagged ∧
    (∀ (b' : Board) (j : Nat), statusAt b' j = TileStatus.checked →
      tile_action b' TAction.flag (Target.byId (j : Int)) = PyResult.ok b') := by
  obtain ⟨v1, w1, l1, s1p⟩ := flagAction_step b i hi hv hw
  rw [hs] at s1p
  have s1 : statusAt (flagAction b i) i = TileStatus.flagged := s1p
  obtain ⟨v2, w2, l2, s2p⟩ := flagAction_step (flagAction b i) i (by omega) v1 w1
  rw [s1] at s2p
  have s2 : statusAt (flagAction (flagAction b i) i) i = TileStatus.question := s2p
  obtain ⟨v3, w3, l3, s3p⟩ := flagAction_step (flagAction (flagAction b i) i) i (by omega) v2 w2
  rw [s2] at s3p
  have s3 : statusAt (flagAction (flagAction (flagAction b i) i) i) i = TileStatus.unchecked := s3p
  obtain ⟨v4, w4, l4, s4p⟩ :=
    flagAction_step (flagAction (flagAction (flagAction b i) i) i) i (by omega) v3 w3
  rw [s3] at s4p
  have s4 : statusAt (flagAction (flagAction (flagAction (flagAction b i) i) i) i) i =
      TileStatus.flagged := s4p
  refine ⟨s1, s2, s3, s4, ?_⟩
  intro b' j hj
  have hjlt : j < b'.tiles.length := by
    by_contra hge
    have hn : b'.tiles.get? j = none := List.get?_eq_none.mpr (by omega)
    simp only [statusAt, tileStatusAt, hn] at hj
    exact absurd hj (by decide)
  obtain ⟨t, hg⟩ : ∃ t, b'.tiles.get? j = some t := by
    cases h : b'.tiles.get? j with
    | none => exact absurd (List.get?_eq_none.mp h) (by omega)
    | some t => exact ⟨t, rfl⟩
  simp only [tile_action, pyIdx_nat b'.tiles.length j hjlt, hg]
  rw [if_neg (by simp)]
  split
  · rfl
  · rw [flag_tile_checked b' j hj]

/-- Witness for `c9_flag_cycle` on a concrete 1-by-2 board. -/
theorem c9_flag_cycle_witness :
    (0 < (setupWith 2 1 [0]).tiles.length ∧ (setupWith 2 1 [0]).valid = true ∧
      (setupWith 2 1 [0]).user_won = false ∧
      statusAt (setupWith 2 1 [0]) 1 = TileStatus.unchecked) ∧
    statusAt (flagAction (setupWith 2 1 [0]) 1) 1 = TileStatus.flagged :=
  ⟨⟨by decide, by decide, by decide, by decide⟩,
    (c9_flag_cycle (setupWith 2 1 [0]) 1 (by decide) (by decide) (by decide) (by decide)).1⟩

/-- C7 counterexample: constructing a 2-by-2 board with 0 mines succeeds;
no minimum mine share is checked, so the construction the claim says must
fail returns a board. -/
theorem c7_counterexample :
    initBoard 2 2 0 = Except.ok { width := 2, height := 2, mine_count := 0 } := by
  rfl

/-- C7 amended: construction of a non-empty board fails (with the
`ValueError` configuration error) exactly when the mine count exceeds the
maximum share `MAX_MINE_SHARE = 0.8` of the total tiles; no minimum share is
enforced, so a 2-by-2 board with 0 mines is accepted. -/
theorem c7_max_share_only (w h m : Nat) (hpos : 0 < w * h) :
    (∃ b, initBoard w h m = Except.ok b) ↔ 5 * m ≤ 4 * (w * h) := by
  simp only [initBoard, MAX_MINE_SHARE_NUM]
  rw [if_neg (by omega)]
  constructor
  · intro ⟨b, hb⟩
    by_contra hgt
    rw [if_pos (by omega)] at hb
    exact Except.noConfusion hb
  · intro hle
    rw [if_neg (by omega)]
    exact ⟨_, rfl⟩

/-- Witness for `c7_max_share_only` at the 2-by-2, 0-mine input. -/
theorem c7_max_share_only_witness :
    0 < 2 * 2 ∧ ((∃ b, initBoard 2 2 0 = Except.ok b) ↔ 5 * 0 ≤ 4 * (2 * 2)) :=
  ⟨by decide, c7_max_share_only 2 2 0 (by decide)⟩

/-- C8 counterexample: on a 1-by-2 board, pressing with the out-of-range
tile id 2 raises `IndexError` instead of being a silent no-op. -/
theorem c8_counterexample :
    tile_action (setupWith 2 1 [0]) TAction.press (Target.byId 2) =
      PyResult.exn "IndexError" (setupWith 2 1 [0]) := by
  decide

/-- A negative id reaching the flood fill hits `self.neighbors[tile_id]` on
the first frontier element: the dictionary lookup does not wrap, so it
raises `KeyError` before any tile is touched. -/
theorem find_zero_neg (b : Board) (i : Int) (h : i < 0) :
    find_zero_adjacent_neighboring_tiles b i = PyResult.exn "KeyError" b := by
  unfold find_zero_adjacent_neighboring_tiles
  have hpt : processTileI b.neighbors b.tiles [] i =
      PyResult.exn "KeyError" (b.tiles, []) := by
    unfold processTileI nmFindI
    rw [if_neg (by omega)]
  have hp : floodPassI b.neighbors b.tiles [] [i] =
      PyResult.exn "KeyError" (b.tiles, []) := by
    show (match processTileI b.neighbors b.tiles [] i with
          | PyResult.ok (ts', temp') => floodPassI b.neighbors ts' temp' []
          | PyResult.exn e st => PyResult.exn e st) =
        PyResult.exn "KeyError" (b.tiles, [])
    rw [hpt]
  have hfuel : MAXIMUM_ITERS - 1 = 9999998 + 1 := rfl
  have hL : floodLoopI b.neighbors (MAXIMUM_ITERS - 1) b.tiles [i] =
      PyResult.exn "KeyError" b.tiles := by
    rw [hfuel]
    show (match floodPassI b.neighbors b.tiles [] [i] with
          | PyResult.ok (ts', temp) =>
            floodLoopI b.neighbors 9999998 ts' (temp.map (fun n => (n : Int)))
          | PyResult.exn e (ts', _) => PyResult.exn e ts') =
        PyResult.exn "KeyError" b.tiles
    rw [hp]
  rw [hL]

/-- `_click_tile` with a negative in-range raw id whose wrapped target is a
mine or has a positive adjacent-mine count never reaches the neighbors
dictionary, so it behaves exactly like the click on the wrapped id. -/
theorem click_tile_wrap (b : Board) (i : Int)
    (h0 : -(b.tiles.length : Int) ≤ i) (h1 : i < 0) (t : Tile)
    (hg : b.tiles.get? ((b.tiles.length : Int) + i).toNat = some t)
    (hmt : t.mine = true ∨ t.adjacent_mines ≠ 0) :
    click_tile b i = click_tile b ((b.tiles.length : Int) + i) := by
  have e1 : pyIdx (release_tiles b).tiles.length i =
      some ((b.tiles.length : Int) + i).toNat := by
    rw [release_tiles_length]
    exact pyIdx_neg b.tiles.length i h0 h1
  have e2 : pyIdx (release_tiles b).tiles.length ((b.tiles.length : Int) + i) =
      some ((b.tiles.length : Int) + i).toNat := by
    rw [release_tiles_length]
    simp only [pyIdx]
    rw [if_pos (by omega)]
  have hrg : (release_tiles b).tiles.get? ((b.tiles.length : Int) + i).toNat =
      some { t with pressed := false } := by
    rw [release_tiles_get?, hg]
    rfl
  simp only [click_tile, e1, e2, hrg]
  split_ifs with hm hadj
  · rfl
  · exfalso
    rcases hmt with h | h
    · exact hm h
    · exact h hadj
  · rfl

/-- C8 amended: for Press, Click and Flag, a `row`/`col` target outside the
grid is a silent no-op, but a direct `tile_id` at or above `W*H` (or below
`-W*H`) raises `IndexError` from the guard clause's `self.tiles[tile_id]`
read (the board is left unchanged).  A `tile_id` in `[-W*H, -1]` wraps for
Press and Flag, acting on tile `W*H + tile_id`, and for Click it wraps for
every list access too — so it coincides with clicking tile `W*H + tile_id`
when that tile is a mine or has a positive adjacent-mine count — but when
the wrapped tile is an Unchecked non-mine with zero adjacent mines on a
live board, the raw negative id is fed to the neighbors dictionary, which
does not wrap: `KeyError` is raised after the wrapped tile is set Checked,
no flood fill runs and the validity rescan is skipped. -/
theorem c8_out_of_range (b : Board) (a : TAction) (ha : a ≠ TAction.release) :
    (∀ r c : Int, get_tile_id_by_row_and_col b r c = none →
      tile_action b a (Target.byRowCol r c) = PyResult.ok b) ∧
    (∀ i : Int, ((b.tiles.length : Int) ≤ i ∨ i < -(b.tiles.length : Int)) →
      tile_action b a (Target.byId i) = PyResult.exn "IndexError" b) ∧
    (∀ i : Int, -(b.tiles.length : Int) ≤ i → i < 0 →
      (a = TAction.press ∨ a = TAction.flag) →
      tile_action b a (Target.byId i) =
        tile_action b a (Target.byId ((b.tiles.length : Int) + i))) ∧
    (∀ i : Int, -(b.tiles.length : Int) ≤ i → i < 0 → ∀ t : Tile,
      b.tiles.get? ((b.tiles.length : Int) + i).toNat = some t →
      (t.mine = true ∨ t.adjacent_mines ≠ 0) →
      tile_action b TAction.click (Target.byId i) =
        tile_action b TAction.click (Target.byId ((b.tiles.length : Int) + i))) ∧
    (∀ i : Int, -(b.tiles.length : Int) ≤ i → i < 0 → ∀ t : Tile,
      b.tiles.get? ((b.tiles.length : Int) + i).toNat = some t →
      t.mine = false → t.adjacent_mines = 0 → t.status = TileStatus.unchecked →
      b.valid = true → b.user_won = false →
      tile_action b TAction.click (Target.byId i) =
        PyResult.exn "KeyError"
          { release_tiles b with
            tiles := (release_tiles b).tiles.set ((b.tiles.length : Int) + i).toNat
              { t with pressed := false, status := TileStatus.checked } }) := by
  refine ⟨?_, ?_, ?_, ?_, ?_⟩
  · intro r c hrc
    simp [tile_action, ha, hrc]
  · intro i hoob
    simp [tile_action, ha, pyIdx_oob b.tiles.length i hoob]
  · intro i h0 h1 ha2
    have e1 : pyIdx b.tiles.length i = some ((b.tiles.length : Int) + i).toNat :=
      pyIdx_neg b.tiles.length i h0 h1
    have e2 : pyIdx b.tiles.length ((b.tiles.length : Int) + i) =
        some ((b.tiles.length : Int) + i).toNat := by
      simp only [pyIdx]
      rw [if_pos (by omega)]
    rcases ha2 with ha2 | ha2 <;> subst ha2 <;> simp only [tile_action, e1, e2]
  · intro i h0 h1 t hg hmt
    have hnr : ¬(TAction.click = TAction.release) := fun h => TAction.noConfusion h
    have e1 : pyIdx b.tiles.length i = some ((b.tiles.length : Int) + i).toNat :=
      pyIdx_neg b.tiles.length i h0 h1
    have e2 : pyIdx b.tiles.length ((b.tiles.length : Int) + i) =
        some ((b.tiles.length : Int) + i).toNat := by
      simp only [pyIdx]
      rw [if_pos (by omega)]
    simp only [tile_action, e1, e2, hg]
    rw [if_neg hnr, if_neg hnr]
    split_ifs with hgd
    · rfl
    · exact click_tile_wrap b i h0 h1 t hg hmt
  · intro i h0 h1 t hg hm hadj hstat hvv hww
    have hnr : ¬(TAction.click = TAction.release) := fun h => TAction.noConfusion h
    have e1 : pyIdx b.tiles.length i = some ((b.tiles.length : Int) + i).toNat :=
      pyIdx_neg b.tiles.length i h0 h1
    simp only [tile_action, e1, hg]
    rw [if_neg hnr]
    split_ifs with hgd
    · exfalso
      rcases hgd with ⟨hne, _⟩ | hv | hw
      · exact hne hstat
      · rw [hvv] at hv
        exact Bool.noConfusion hv
      · rw [hww] at hw
        exact Bool.noConfusion hw
    · have e2 : pyIdx (release_tiles b).tiles.length i =
          some ((b.tiles.length : Int) + i).toNat := by
        rw [release_tiles_length]
        exact e1
      have hrg : (release_tiles b).tiles.get? ((b.tiles.length : Int) + i).toNat =
          some { t with pressed := false } := by
        rw [release_tiles_get?, hg]
        rfl
      simp only [click_tile, e2, hrg]
      rw [if_neg (by
        show ¬(({ t with pressed := false } : Tile).mine = true)
        rw [show ({ t with pressed := false } : Tile).mine = t.mine from rfl, hm]
        exact Bool.noConfusion)]
      rw [if_pos (by
        show ({ t with pressed := false } : Tile).adjacent_mines = 0
        rw [show ({ t with pressed := false } : Tile).adjacent_mines =
          t.adjacent_mines from rfl, hadj])]
      rw [find_zero_neg _ i h1]

/-- Witness for `c8_out_of_range` on a mine-free 1-by-2 board: clicking with
the raw id -1 checks the wrapped tile 1 and then raises `KeyError` from the
neighbors-dictionary lookup. -/
theorem c8_out_of_range_witness :
    ((setupWith 2 1 []).tiles.get? (((setupWith 2 1 []).tiles.length : Int) + (-1)).toNat =
      some { id := 1, mine := false, pressed := false, status := TileStatus.unchecked,
             adjacent_mines := 0, row := 0, col := 1 }) ∧
    tile_action (setupWith 2 1 []) TAction.click (Target.byId (-1)) =
      PyResult.exn "KeyError"
        { release_tiles (setupWith 2 1 []) with
          tiles := (release_tiles (setupWith 2 1 [])).tiles.set
            (((setupWith 2 1 []).tiles.length : Int) + (-1)).toNat
            { id := 1, mine := false, pressed := false, status := TileStatus.checked,
              adjacent_mines := 0, row := 0, col := 1 } } :=
  ⟨by decide,
    (c8_out_of_range (setupWith 2 1 []) TAction.click (by decide)).2.2.2.2 (-1)
      (by decide) (by decide)
      { id := 1, mine := false, pressed := false, status := TileStatus.unchecked,
        adjacent_mines := 0, row := 0, col := 1 }
      (by decide) (by decide) (by decide) (by decide) (by decide) (by decide)⟩

/-- C1 (code defect): on a 1-by-2 board with its single mine at id 0,
clicking tile 1 leaves every non-mine tile Checked on a still-valid board,
yet `user_won` stays false — `_check_win` is never invoked by `_click_tile`
(it is dead code, and what it tests is that every mine is Flagged), so the
claimed "won iff every non-mine tile Checked" fails in the only direction
that can ever arise. -/
theorem c1_win_flag_never_set :
    (∀ i, i < (tile_action (setupWith 2 1 [0]) TAction.click (Target.byId 1)).get.tiles.length →
      tileMineAt (tile_action (setupWith 2 1 [0]) TAction.click (Target.byId 1)).get.tiles i = false →
      statusAt (tile_action (setupWith 2 1 [0]) TAction.click (Target.byId 1)).get i =
        TileStatus.checked) ∧
    (tile_action (setupWith 2 1 [0]) TAction.click (Target.byId 1)).get.valid = true ∧
    (tile_action (setupWith 2 1 [0]) TAction.click (Target.byId 1)).get.user_won = false := by
  decide

/-- Validity rescan when some mine is checked: the board turns invalid. -/
theorem check_validity_hit (b : Board)
    (h : b.tiles.any (fun t => t.mine && t.status == TileStatus.checked) = true) :
    check_validity b = { b with valid := false } := by
  unfold check_validity
  rw [if_pos h]

/-- Validity rescan when no mine is checked: the board is unchanged. -/
theorem check_validity_miss (b : Board)
    (h : b.tiles.any (fun t => t.mine && t.status == TileStatus.checked) = false) :
    check_validity b = b := by
  unfold check_validity
  rw [if_neg (by simp [h])]

/-- C5: `_click_tile` on an Unchecked mine tile checks exactly that tile,
turns the board invalid, and leaves the status of every other tile
unchanged (no flood fill runs). -/
theorem c5_click_mine (b : Board) (idx : Nat) (t : Tile)
    (hg : b.tiles.get? idx = some t) (hm : t.mine = true)
    (hs : t.status = TileStatus.unchecked) :
    (click_tile b (idx : Int)).isOk = true ∧
    statusAt (click_tile b (idx : Int)).get idx = TileStatus.checked ∧
    (click_tile b (idx : Int)).get.valid = false ∧
    (∀ j, j ≠ idx → statusAt (click_tile b (idx : Int)).get j = statusAt b j) := by
  have hlt : idx < b.tiles.length := (List.get?_eq_some.mp hg).1
  obtain ⟨tid, tm, tp, tst, ta, tr, tc⟩ := t
  simp only at hm hs
  subst hm
  subst hs
  have hrg : (release_tiles b).tiles.get? idx = some { id := tid, mine := true, pressed := false, status := TileStatus.unchecked, adjacent_mines := ta, row := tr, col := tc } := by
    rw [release_tiles_get?, hg]
    rfl
  have hset : ((release_tiles b).tiles.set idx { id := tid, mine := true, pressed := false, status := TileStatus.checked, adjacent_mines := ta, row := tr, col := tc }).get? idx = some { id := tid, mine := true, pressed := false, status := TileStatus.checked, adjacent_mines := ta, row := tr, col := tc } := by
    rw [List.get?_set_eq, hrg]
    rfl
  have hany : (((release_tiles b).tiles.set idx { id := tid, mine := true, pressed := false, status := TileStatus.checked, adjacent_mines := ta, row := tr, col := tc }).any (fun x => x.mine && x.status == TileStatus.checked)) = true := by
    rw [List.any_eq_true]
    exact ⟨_, List.get?_mem hset, by simp⟩
  have hpy : pyIdx (release_tiles b).tiles.length (idx : Int) = some idx := by
    rw [release_tiles_length]
    exact pyIdx_nat _ _ hlt
  simp only [click_tile, hpy, hrg]
  rw [if_pos trivial]
  rw [check_validity_hit _ hany]
  refine ⟨rfl, ?_, rfl, ?_⟩
  · simp only [PyResult.get, statusAt, tileStatusAt, hset]
  · intro j hj
    simp only [PyResult.get, statusAt, tileStatusAt]
    rw [List.get?_set_ne _ _ (fun h => hj h.symm), release_tiles_get?]
    cases hgj : b.tiles.get? j <;> rfl

/-- Witness for `c5_click_mine` on a 1-by-2 board with the mine at id 0. -/
theorem c5_click_mine_witness :
    ((setupWith 2 1 [0]).tiles.get? 0 =
        some { id := 0, mine := true, pressed := false, status := TileStatus.unchecked,
               adjacent_mines := 0, row := 0, col := 0 }) ∧
    (click_tile (setupWith 2 1 [0]) 0).get.valid = false :=
  ⟨by decide,
    (c5_click_mine (setupWith 2 1 [0]) 0
      { id := 0, mine := true, pressed := false, status := TileStatus.unchecked,
        adjacent_mines := 0, row := 0, col := 0 }
      (by decide) (by decide) (by decide)).2.2.1⟩

/-- Row/col targeting resolves to the canonical id and then behaves exactly
like direct-id targeting with that id. -/
theorem tile_action_byRowCol_eq (b : Board) (a : TAction) (r c : Int) (nid : Nat)
    (ha : a ≠ TAction.release) (h : get_tile_id_by_row_and_col b r c = some nid) :
    tile_action b a (Target.byRowCol r c) = tile_action b a (Target.byId (nid : Int)) := by
  simp only [tile_action, if_neg ha, h]

theorem find_zero_cpt (b : Board) (tid : Int) :
    (find_zero_adjacent_neighboring_tiles b tid).get.current_pressed_tile =
      b.current_pressed_tile := by
  simp only [find_zero_adjacent_neighboring_tiles]
  cases floodLoopI b.neighbors (MAXIMUM_ITERS - 1) b.tiles [tid] <;> rfl

theorem click_flood_branch_cpt (B : Board) (i : Int)
    (h : B.current_pressed_tile = -1) :
    (match find_zero_adjacent_neighboring_tiles B i with
     | PyResult.ok b' => PyResult.ok (check_validity b')
     | PyResult.exn e b' => PyResult.exn e b').get.current_pressed_tile = -1 := by
  cases hfz : find_zero_adjacent_neighboring_tiles B i with
  | ok b' =>
    have h3 := find_zero_cpt B i
    rw [hfz] at h3
    dsimp only [PyResult.get] at h3 ⊢
    rw [(check_validity_fields b').2, h3, h]
  | exn e b' =>
    have h3 := find_zero_cpt B i
    rw [hfz] at h3
    dsimp only [PyResult.get] at h3 ⊢
    rw [h3, h]

theorem click_tile_cpt (b : Board) (i : Int) :
    (click_tile b i).get.current_pressed_tile = -1 := by
  simp only [click_tile]
  cases hpy : pyIdx (release_tiles b).tiles.length i with
  | none => rfl
  | some idx =>
    dsimp only
    cases hrg : (release_tiles b).tiles.get? idx with
    | none => rfl
    | some t =>
      dsimp only
      split_ifs with h1 h2
      · exact ((check_validity_fields _).2).trans rfl
      · exact click_flood_branch_cpt _ i rfl
      · exact ((check_validity_fields _).2).trans rfl

theorem tile_action_cpt (b : Board) (a : TAction) (tgt : Target) :
    (tile_action b a tgt).get.current_pressed_tile = b.current_pressed_tile ∨
    (tile_action b a tgt).get.current_pressed_tile = -1 := by
  by_cases ha : a = TAction.release
  · subst ha
    right
    rfl
  have core : ∀ i : Int,
      (tile_action b a (Target.byId i)).get.current_pressed_tile = b.current_pressed_tile ∨
      (tile_action b a (Target.byId i)).get.current_pressed_tile = -1 := by
    intro i
    simp only [tile_action, if_neg ha]
    cases hp : pyIdx b.tiles.length i with
    | none => left; rfl
    | some idx =>
      dsimp only
      cases hg : b.tiles.get? idx with
      | none => left; rfl
      | some t =>
        dsimp only
        split
        · left; rfl
        · cases a with
          | press => right; rfl
          | release => exact absurd rfl ha
          | click => right; exact click_tile_cpt b i
          | flag => left; exact (flag_tile_fields b idx).2.2.2
  cases tgt with
  | byId i => exact core i
  | byRowCol r c =>
    cases hrc : get_tile_id_by_row_and_col b r c with
    | none =>
      left
      simp only [tile_action, if_neg ha, hrc]
      rfl
    | some nid =>
      rw [tile_action_byRowCol_eq b a r c nid ha hrc]
      exact core nid

theorem runActions_cpt (b : Board) (h : b.current_pressed_tile = -1)
    (acts : List (TAction × Target)) :
    (runActions b acts).current_pressed_tile = -1 := by
  induction acts generalizing b with
  | nil => exact h
  | cons at' rest ih =>
    obtain ⟨a, t⟩ := at'
    apply ih
    rcases tile_action_cpt b a t with hp | hp
    · rw [hp, h]
    · exact hp

theorem initBoard_cpt (w h m : Nat) (b0 : Board)
    (hinit : initBoard w h m = Except.ok b0) : b0.current_pressed_tile = -1 := by
  unfold initBoard at hinit
  split_ifs at hinit
  all_goals
    first
      | exact Except.noConfusion hinit
      | (cases hinit; rfl)

theorem setup_cpt (b : Board) (s : List Nat) :
    (setup b s).current_pressed_tile = b.current_pressed_tile := rfl

/-- C10: along every action sequence from a constructed and set-up board,
`current_pressed_tile` stays -1: `_press_tile` marks the tile's pressed flag
and the board-level `tile_pressed` flag but never records the pressed id, so
the exposed field never identifies the pressed tile. -/
theorem c10_current_pressed_tile (w h m : Nat) (b0 : Board) (s : List Nat)
    (acts : List (TAction × Target))
    (hinit : initBoard w h m = Except.ok b0) :
    (runActions (setup b0 s) acts).current_pressed_tile = -1 := by
  apply runActions_cpt
  rw [setup_cpt]
  exact initBoard_cpt w h m b0 hinit

/-- Witness for `c10_current_pressed_tile`: a 2-by-2 board with one mine, a
press then a click. -/
theorem c10_current_pressed_tile_witness :
    initBoard 2 2 1 = Except.ok { width := 2, height := 2, mine_count := 1 } ∧
    (runActions (setup { width := 2, height := 2, mine_count := 1 } [0])
      [(TAction.press, Target.byId 1), (TAction.click, Target.byId 1)]).current_pressed_tile = -1 :=
  ⟨by rfl,
    c10_current_pressed_tile 2 2 1 { width := 2, height := 2, mine_count := 1 } [0]
      [(TAction.press, Target.byId 1), (TAction.click, Target.byId 1)] (by rfl)⟩

/-- On a frozen board (invalid or won), any single action leaves every
tile's status and the `valid`/`user_won` flags unchanged. -/
theorem tile_action_frozen (b : Board) (a : TAction) (tgt : Target)
    (hf : b.valid = false ∨ b.user_won = true) :
    statusesOf (tile_action b a tgt).get = statusesOf b ∧
    (tile_action b a tgt).get.valid = b.valid ∧
    (tile_action b a tgt).get.user_won = b.user_won := by
  by_cases ha : a = TAction.release
  · subst ha
    exact ⟨statusesOf_release b, rfl, rfl⟩
  have core : ∀ i : Int,
      statusesOf (tile_action b a (Target.byId i)).get = statusesOf b ∧
      (tile_action b a (Target.byId i)).get.valid = b.valid ∧
      (tile_action b a (Target.byId i)).get.user_won = b.user_won := by
    intro i
    simp only [tile_action, if_neg ha]
    cases hp : pyIdx b.tiles.length i with
    | none => exact ⟨rfl, rfl, rfl⟩
    | some idx =>
      dsimp only
      cases hg : b.tiles.get? idx with
      | none => exact ⟨rfl, rfl, rfl⟩
      | some t =>
        dsimp only
        rw [if_pos]
        · exact ⟨rfl, rfl, rfl⟩
        · rcases hf with hv | hw
          · exact Or.inr (Or.inl hv)
          · exact Or.inr (Or.inr hw)
  cases tgt with
  | byId i => exact core i
  | byRowCol r c =>
    cases hrc : get_tile_id_by_row_and_col b r c with
    | none =>
      simp only [tile_action, if_neg ha, hrc]
      exact ⟨rfl, rfl, rfl⟩
    | some nid =>
      rw [tile_action_byRowCol_eq b a r c nid ha hrc]
      exact core nid

/-- C4: once a board is invalid or won, every subsequent action sequence
(any actions, any in-range or out-of-range targets) leaves the status of
every tile unchanged. -/
theorem c4_frozen_board (b : Board) (acts : List (TAction × Target))
    (hf : b.valid = false ∨ b.user_won = true) :
    statusesOf (runActions b acts) = statusesOf b := by
  induction acts generalizing b with
  | nil => rfl
  | cons at' rest ih =>
    obtain ⟨a, t⟩ := at'
    obtain ⟨hst, hv, hw⟩ := tile_action_frozen b a t hf
    have hf' : (tile_action b a t).get.valid = false ∨
        (tile_action b a t).get.user_won = true := by
      rcases hf with h | h
      · exact Or.inl (hv.trans h)
      · exact Or.inr (hw.trans h)
    calc statusesOf (runActions (tile_action b a t).get rest)
        = statusesOf (tile_action b a t).get := ih _ hf'
      _ = statusesOf b := hst

/-- Witness for `c4_frozen_board`: a lost 1-by-2 board (mine at 0 clicked),
then a click, a flag and an out-of-range press change no status. -/
theorem c4_frozen_board_witness :
    ((click_tile (setupWith 2 1 [0]) 0).get.valid = false ∨
      (click_tile (setupWith 2 1 [0]) 0).get.user_won = true) ∧
    statusesOf (runActions (click_tile (setupWith 2 1 [0]) 0).get
      [(TAction.click, Target.byId 1), (TAction.flag, Target.byId 0),
       (TAction.press, Target.byId 7), (TAction.release, Target.byId 0)]) =
      statusesOf (click_tile (setupWith 2 1 [0]) 0).get :=
  ⟨Or.inl (by decide),
    c4_frozen_board (click_tile (setupWith 2 1 [0]) 0).get
      [(TAction.click, Target.byId 1), (TAction.flag, Target.byId 0),
       (TAction.press, Target.byId 7), (TAction.release, Target.byId 0)]
      (Or.inl (by decide))⟩

/-! ### Characterization of the tile grid built by `setup` -/

/-- The tile `_create_tiles` makes for id `j` on a board of width `w`:
row-major coordinates. -/
def tile0 (w j : Nat) : Tile := { id := j, row := j / w, col := j % w }

theorem createTilesAux_eq (width : Nat) (hw : 1 ≤ width) :
    ∀ (k tid r c : Nat), tid = r * width + c → c ≤ width →
    createTilesAux width k tid r c =
      (List.range k).map (fun j => tile0 width (tid + j)) := by
  intro k
  induction k with
  | zero => intro tid r c _ _; rfl
  | succ k ih =>
    intro tid r c htid hc
    rw [List.range_succ_eq_map, List.map_cons, List.map_map]
    by_cases hgt : c > width - 1
    · have hcw : c = width := by omega
      subst htid
      rw [createTilesAux, if_pos hgt, hcw]
      have h1 : (r * width + width) / width = r + 1 := by
        rw [show r * width + width = (r + 1) * width by ring,
          Nat.mul_div_cancel _ (by omega : 0 < width)]
      have h2 : (r * width + width) % width = 0 := by
        rw [show r * width + width = (r + 1) * width by ring, Nat.mul_mod_left]
      have htile : ({ id := r * width + width, row := r + 1, col := 0 } : Tile) =
          tile0 width (r * width + width + 0) := by
        simp [tile0, h1, h2]
      rw [htile, ih (r * width + width + 1) (r + 1) 1 (by ring) (by omega)]
      congr 1
      apply List.map_congr_left
      intro j _
      simp only [Function.comp]
      congr 1
      omega
    · have hclt : c < width := by omega
      subst htid
      rw [createTilesAux]
      rw [if_neg hgt]
      have htile : ({ id := r * width + c, row := r, col := c } : Tile) =
          tile0 width (r * width + c + 0) := by
        have h1 : (r * width + c) / width = r := by
          rw [Nat.add_comm, Nat.add_mul_div_right _ _ (by omega : 0 < width),
            Nat.div_eq_of_lt hclt]
          omega
        have h2 : (r * width + c) % width = c := by
          rw [Nat.add_comm, Nat.add_mul_mod_self_right, Nat.mod_eq_of_lt hclt]
        simp [tile0, h1, h2]
      rw [htile, ih (r * width + c + 1) r (c + 1) (by ring) (by omega)]
      congr 1
      apply List.map_congr_left
      intro j _
      simp only [Function.comp]
      congr 1
      omega

/-- The tile of id `j` right after `_assign_mines` (mine flag from the
sample, zero adjacency count, unchecked). -/
def tileInit (w : Nat) (s : List Nat) (j : Nat) : Tile :=
  { id := j, mine := decide (j ∈ s), row := j / w, col := j % w }

theorem assign_create_tiles_eq (b : Board) (s : List Nat) (hw : 1 ≤ b.width) :
    (assign_mines (create_tiles (clear_board b)) s).tiles =
      (List.range (b.width * b.height)).map (tileInit b.width s) := by
  simp only [assign_mines, create_tiles, clear_board, List.nil_append]
  rw [createTilesAux_eq b.width hw (b.width * b.height) 0 0 0 (by ring) (by omega)]
  rw [List.map_map]
  apply List.map_congr_left
  intro j _
  by_cases hj : j ∈ s
  · simp [tile0, tileInit, hj]
  · simp [tile0, tileInit, hj]

/-- The fields of a tile that `_map_neighbors` never writes. -/
def tileCore (t : Tile) : Nat × Bool × Bool × TileStatus × Nat × Nat :=
  (t.id, t.mine, t.pressed, t.status, t.row, t.col)

theorem mapNeighborsStep_core (w h : Nat) (mines : List Nat)
    (st : List Tile × NeighborMap) (i j : Nat) :
    (((mapNeighborsStep w h mines st i).1.get? j).map tileCore) =
      ((st.1.get? j).map tileCore) := by
  simp only [mapNeighborsStep]
  cases hg : st.1.get? i with
  | none => rfl
  | some t =>
    dsimp only
    split
    · rfl
    · by_cases hij : i = j
      · subst hij
        rw [List.get?_set_eq, hg]
        rfl
      · rw [List.get?_set_ne _ _ hij]

theorem mapNeighborsStep_len (w h : Nat) (mines : List Nat)
    (st : List Tile × NeighborMap) (i : Nat) :
    (mapNeighborsStep w h mines st i).1.length = st.1.length := by
  simp only [mapNeighborsStep]
  cases hg : st.1.get? i with
  | none => rfl
  | some t =>
    dsimp only
    split
    · rfl
    · exact List.length_set _ _ _

theorem foldl_mapNeighborsStep_core (w h : Nat) (mines : List Nat)
    (l : List Nat) (st : List Tile × NeighborMap) (j : Nat) :
    (((l.foldl (mapNeighborsStep w h mines) st).1.get? j).map tileCore) =
      ((st.1.get? j).map tileCore) := by
  induction l generalizing st with
  | nil => rfl
  | cons i rest ih =>
    rw [List.foldl_cons, ih, mapNeighborsStep_core]

theorem map_neighbors_core (b : Board) (j : Nat) :
    (((map_neighbors b).tiles.get? j).map tileCore) = ((b.tiles.get? j).map tileCore) := by
  simp only [map_neighbors]
  exact foldl_mapNeighborsStep_core _ _ _ _ _ j

/-- C3 (code defect): for any sample that `random.sample` can actually
return on the population `range(0, W*H - 1)` the code uses, the tile with
the last id `W*H - 1` is never a mine after `setup` — the claimed full-range
uniform sampling is impossible because the population omits the last id. -/
theorem c3_last_tile_never_mined (w h k : Nat) (s : List Nat)
    (hpos : 1 ≤ w * h) (hs : IsSampleOf (w * h) k s) :
    ((setupWith w h s).tiles.get? (w * h - 1)).map Tile.mine = some false := by
  have hw : 1 ≤ w := by
    rcases Nat.eq_zero_or_pos w with h0 | h1
    · rw [h0, Nat.zero_mul] at hpos
      omega
    · exact h1
  have hnotin : (w * h - 1) ∉ s := by
    intro hmem
    have := hs.2.2 _ hmem
    simp only [sample_population, List.mem_range] at this
    omega
  have hcore := map_neighbors_core
    (assign_mines (create_tiles (clear_board { width := w, height := h, mine_count := s.length })) s)
    (w * h - 1)
  have htiles := assign_create_tiles_eq { width := w, height := h, mine_count := s.length } s hw
  simp only at htiles
  rw [htiles] at hcore
  have hget : ((List.range (w * h)).map (tileInit w s)).get? (w * h - 1) =
      some (tileInit w s (w * h - 1)) := by
    rw [List.get?_map, List.get?_range (by omega)]
    rfl
  rw [hget] at hcore
  have hsetup : (setupWith w h s).tiles =
      (map_neighbors (assign_mines (create_tiles (clear_board
        { width := w, height := h, mine_count := s.length })) s)).tiles := rfl
  rw [hsetup]
  cases hg : (map_neighbors (assign_mines (create_tiles (clear_board
      { width := w, height := h, mine_count := s.length })) s)).tiles.get? (w * h - 1) with
  | none => rw [hg] at hcore; exact Option.noConfusion hcore
  | some t =>
    rw [hg] at hcore
    simp only [Option.map_some'] at hcore ⊢
    have hmine : t.mine = (tileInit w s (w * h - 1)).mine := by
      have := congrArg (fun o => o.map (fun p => p.2.1)) hcore
      simpa [tileCore] using this
    rw [hmine]
    simp [tileInit, hnotin]

/-- Witness for `c3_last_tile_never_mined` on a 2-by-2 board with one
sampled mine. -/
theorem c3_last_tile_never_mined_witness :
    (1 ≤ 2 * 2 ∧ IsSampleOf (2 * 2) 1 [2]) ∧
    ((setupWith 2 2 [2]).tiles.get? (2 * 2 - 1)).map Tile.mine = some false :=
  ⟨⟨by decide, by decide, by decide, by decide⟩,
    c3_last_tile_never_mined 2 2 1 [2] (by decide)
      ⟨by decide, by decide, by decide⟩⟩

/-! ### The neighbor map and adjacency counts after `setup` -/

theorem nmFind_append (m1 m2 : NeighborMap) (q : Nat) :
    nmFind (m1 ++ m2) q = ((nmFind m1 q).or (nmFind m2 q)) := by
  simp only [nmFind, List.find?_append]
  cases List.find? (fun p => p.1 == q) m1 <;> rfl

theorem nmFind_single (k : Nat) (v : List Nat) (q : Nat) :
    nmFind [(k, v)] q = if k = q then some v else none := by
  simp only [nmFind, List.find?]
  by_cases h : k = q
  · subst h
    simp
  · have hb : (k == q) = false := beq_false_of_ne h
    simp [hb, h]

theorem nmInsert_fresh (m : NeighborMap) (k : Nat) (v : List Nat)
    (h : nmFind m k = none) : nmInsert m k v = m ++ [(k, v)] := by
  simp only [nmInsert]
  rw [if_neg]
  simp only [nmFind, Option.map_eq_none'] at h
  rw [List.find?_eq_none] at h
  intro hany
  rw [List.any_eq_true] at hany
  obtain ⟨p, hp, hpk⟩ := hany
  exact h p hp hpk

theorem nmFind_insert_fresh (m : NeighborMap) (k : Nat) (v : List Nat)
    (h : nmFind m k = none) (q : Nat) :
    nmFind (nmInsert m k v) q = if k = q then some v else nmFind m q := by
  rw [nmInsert_fresh m k v h, nmFind_append, nmFind_single]
  by_cases hkq : k = q
  · subst hkq
    rw [h]
    simp
  · rw [if_neg hkq, if_neg hkq]
    cases nmFind m q <;> rfl

/-- The adjacency count `_map_neighbors` stores for the non-mine tile `i`:
the number of entries of its neighbor list that lie in `tiles_with_mines`. -/
def adjCode (w h : Nat) (s : List Nat) (i : Nat) : Nat :=
  ((neighborIdsOf w h (i / w) (i % w)).filter (fun nb => decide (nb ∈ s))).length

/-- The tile of id `i` as it stands after `setup` when it is not a mine. -/
def tileDone (w h : Nat) (s : List Nat) (i : Nat) : Tile :=
  { id := i, mine := false, row := i / w, col := i % w,
    adjacent_mines := adjCode w h s i }

/-- The tile list as it stands when `_map_neighbors` starts inside `setup`. -/
def initTiles (w h : Nat) (s : List Nat) : List Tile :=
  (List.range (w * h)).map (tileInit w s)

theorem initTiles_get? (w h : Nat) (s : List Nat) (i : Nat) (hi : i < w * h) :
    (initTiles w h s).get? i = some (tileInit w s i) := by
  rw [initTiles, List.get?_map, List.get?_range hi]
  rfl

theorem initTiles_length (w h : Nat) (s : List Nat) :
    (initTiles w h s).length = w * h := by
  simp [initTiles]

theorem tileInit_id (w : Nat) (s : List Nat) (j : Nat) : (tileInit w s j).id = j := rfl

theorem tileInit_row (w : Nat) (s : List Nat) (j : Nat) : (tileInit w s j).row = j / w := rfl

theorem tileInit_col (w : Nat) (s : List Nat) (j : Nat) : (tileInit w s j).col = j % w := rfl

theorem mapNeighbors_invariant (w h : Nat) (s : List Nat) :
    ∀ j, j ≤ w * h →
    ((List.range j).foldl (mapNeighborsStep w h s) (initTiles w h s, ([] : NeighborMap))).1.length = w * h ∧
    (∀ i, (j ≤ i ∨ i ∈ s) →
      ((List.range j).foldl (mapNeighborsStep w h s) (initTiles w h s, ([] : NeighborMap))).1.get? i =
        (initTiles w h s).get? i) ∧
    (∀ i, i < j → i ∉ s →
      ((List.range j).foldl (mapNeighborsStep w h s) (initTiles w h s, ([] : NeighborMap))).1.get? i =
        some (tileDone w h s i)) ∧
    (∀ q, nmFind ((List.range j).foldl (mapNeighborsStep w h s) (initTiles w h s, ([] : NeighborMap))).2 q =
      if q < j ∧ q ∉ s then some (neighborIdsOf w h (q / w) (q % w)) else none) := by
  intro j
  induction j with
  | zero =>
    intro _
    refine ⟨initTiles_length w h s, fun i _ => rfl, fun i hi _ => absurd hi (by omega), fun q => ?_⟩
    rw [if_neg (by omega)]
    rfl
  | succ j ih =>
    intro hj1
    obtain ⟨hlen, hunch, hdone, hnm⟩ := ih (by omega)
    rw [List.range_succ, List.foldl_append, List.foldl_cons, List.foldl_nil]
    have hgetj : ((List.range j).foldl (mapNeighborsStep w h s) (initTiles w h s, ([] : NeighborMap))).1.get? j =
        some (tileInit w s j) :=
      (hunch j (Or.inl le_rfl)).trans (initTiles_get? w h s j (by omega))
    by_cases hjs : j ∈ s
    · have hstep : mapNeighborsStep w h s
          ((List.range j).foldl (mapNeighborsStep w h s) (initTiles w h s, ([] : NeighborMap))) j =
          (List.range j).foldl (mapNeighborsStep w h s) (initTiles w h s, ([] : NeighborMap)) := by
        simp only [mapNeighborsStep, hgetj]
        rw [if_pos (by simp [tileInit, hjs])]
      rw [hstep]
      refine ⟨hlen, ?_, ?_, ?_⟩
      · intro i hcond
        apply hunch
        rcases hcond with hc | hc
        · by_cases hij : i = j
          · subst hij
            exact Or.inr hjs
          · exact Or.inl (by omega)
        · exact Or.inr hc
      · intro i hi hins
        have hlt : i < j := by
          rcases Nat.lt_succ_iff_lt_or_eq.mp hi with hlt | heq
          · exact hlt
          · exact absurd (heq ▸ hjs) hins
        exact hdone i hlt hins
      · intro q
        rw [hnm q]
        by_cases hq : q < j ∧ q ∉ s
        · rw [if_pos hq, if_pos ⟨by omega, hq.2⟩]
        · rw [if_neg hq, if_neg]
          intro hc
          apply hq
          refine ⟨?_, hc.2⟩
          rcases Nat.lt_succ_iff_lt_or_eq.mp hc.1 with hlt | heq
          · exact hlt
          · exact absurd (heq ▸ hjs) hc.2
    · have hnmj : nmFind ((List.range j).foldl (mapNeighborsStep w h s) (initTiles w h s, ([] : NeighborMap))).2 j = none := by
        rw [hnm j, if_neg (fun hc => absurd hc.1 (lt_irrefl j))]
      have hstep : mapNeighborsStep w h s
          ((List.range j).foldl (mapNeighborsStep w h s) (initTiles w h s, ([] : NeighborMap))) j =
          (((List.range j).foldl (mapNeighborsStep w h s) (initTiles w h s, ([] : NeighborMap))).1.set j
              (tileDone w h s j),
            ((List.range j).foldl (mapNeighborsStep w h s) (initTiles w h s, ([] : NeighborMap))).2 ++
              [(j, neighborIdsOf w h (j / w) (j % w))]) := by
        simp only [mapNeighborsStep, hgetj]
        rw [if_neg (by simp [tileInit, hjs])]
        simp only [tileInit_id, tileInit_row, tileInit_col]
        rw [hnmj, nmInsert_fresh _ _ _ hnmj]
        simp only [Option.getD_none, List.nil_append]
        simp [tileDone, adjCode, tileInit, hjs]
      rw [hstep]
      refine ⟨?_, ?_, ?_, ?_⟩
      · rw [List.length_set]
        exact hlen
      · intro i hcond
        have hne : j ≠ i := by
          rcases hcond with hc | hc
          · omega
          · intro he
            exact hjs (he ▸ hc)
        rw [List.get?_set_ne _ _ hne]
        apply hunch
        rcases hcond with hc | hc
        · exact Or.inl (by omega)
        · exact Or.inr hc
      · intro i hi hins
        by_cases hij : i = j
        · subst hij
          rw [List.get?_set_eq, hgetj]
          rfl
        · rw [List.get?_set_ne _ _ (fun he => hij he.symm)]
          exact hdone i (by omega) hins
      · intro q
        rw [nmFind_append, hnm q, nmFind_single]
        by_cases hqj : j = q
        · subst hqj
          have hc1 : ¬(j < j ∧ j ∉ s) := fun hc => absurd hc.1 (lt_irrefl j)
          have hc2 : j < j + 1 ∧ j ∉ s := ⟨Nat.lt_succ_self j, hjs⟩
          rw [if_neg hc1, if_pos rfl, if_pos hc2]
          rfl
        · by_cases hql : q < j ∧ q ∉ s
          · have hc2 : q < j + 1 ∧ q ∉ s := ⟨by omega, hql.2⟩
            rw [if_pos hql, if_pos hc2, if_neg hqj]
            rfl
          · have hc2 : ¬(q < j + 1 ∧ q ∉ s) := by
              intro hc
              have hne : q ≠ j := fun he => hqj he.symm
              exact hql ⟨by omega, hc.2⟩
            rw [if_neg hql, if_neg hqj, if_neg hc2]
            rfl

theorem setupWith_tiles_eq (w h : Nat) (s : List Nat) (hw : 1 ≤ w) :
    (setupWith w h s).tiles =
      ((List.range (w * h)).foldl (mapNeighborsStep w h s) (initTiles w h s, ([] : NeighborMap))).1 := by
  have hb1 : (assign_mines (create_tiles (clear_board { width := w, height := h, mine_count := s.length })) s).tiles = initTiles w h s :=
    assign_create_tiles_eq { width := w, height := h, mine_count := s.length } s hw
  have e : (setupWith w h s).tiles =
      ((List.range (assign_mines (create_tiles (clear_board { width := w, height := h, mine_count := s.length })) s).tiles.length).foldl
        (mapNeighborsStep w h s)
        ((assign_mines (create_tiles (clear_board { width := w, height := h, mine_count := s.length })) s).tiles,
          ([] : NeighborMap))).1 := rfl
  rw [e, hb1, initTiles_length]

theorem setupWith_neighbors_eq (w h : Nat) (s : List Nat) (hw : 1 ≤ w) :
    (setupWith w h s).neighbors =
      ((List.range (w * h)).foldl (mapNeighborsStep w h s) (initTiles w h s, ([] : NeighborMap))).2 := by
  have hb1 : (assign_mines (create_tiles (clear_board { width := w, height := h, mine_count := s.length })) s).tiles = initTiles w h s :=
    assign_create_tiles_eq { width := w, height := h, mine_count := s.length } s hw
  have e : (setupWith w h s).neighbors =
      ((List.range (assign_mines (create_tiles (clear_board { width := w, height := h, mine_count := s.length })) s).tiles.length).foldl
        (mapNeighborsStep w h s)
        ((assign_mines (create_tiles (clear_board { width := w, height := h, mine_count := s.length })) s).tiles,
          ([] : NeighborMap))).2 := rfl
  rw [e, hb1, initTiles_length]

theorem setupWith_length (w h : Nat) (s : List Nat) (hw : 1 ≤ w) :
    (setupWith w h s).tiles.length = w * h := by
  rw [setupWith_tiles_eq w h s hw]
  exact (mapNeighbors_invariant w h s (w * h) le_rfl).1

theorem setupWith_get?_nonmine (w h : Nat) (s : List Nat) (i : Nat) (hw : 1 ≤ w)
    (hi : i < w * h) (hins : i ∉ s) :
    (setupWith w h s).tiles.get? i = some (tileDone w h s i) := by
  rw [setupWith_tiles_eq w h s hw]
  exact (mapNeighbors_invariant w h s (w * h) le_rfl).2.2.1 i hi hins

theorem setupWith_get?_mine (w h : Nat) (s : List Nat) (i : Nat) (hw : 1 ≤ w)
    (hi : i < w * h) (hins : i ∈ s) :
    (setupWith w h s).tiles.get? i = some (tileInit w s i) := by
  rw [setupWith_tiles_eq w h s hw]
  exact ((mapNeighbors_invariant w h s (w * h) le_rfl).2.1 i (Or.inr hins)).trans
    (initTiles_get? w h s i hi)

theorem setupWith_nmFind (w h : Nat) (s : List Nat) (q : Nat) (hw : 1 ≤ w) :
    nmFind (setupWith w h s).neighbors q =
      if q < w * h ∧ q ∉ s then some (neighborIdsOf w h (q / w) (q % w)) else none := by
  rw [setupWith_neighbors_eq w h s hw]
  exact (mapNeighbors_invariant w h s (w * h) le_rfl).2.2.2 q

/-- The brute-force reference count of the spec: over the eight relative
offsets, count those that stay inside the grid and whose target id (in
row-major form, from row `i / w` and column `i % w`) is in the mine set. -/
def specAdjCount (w h : Nat) (mines : List Nat) (i : Nat) : Nat :=
  SHIFT.countP (fun d =>
    decide (0 ≤ ((i / w : Nat) : Int) + d.1 ∧ ((i / w : Nat) : Int) + d.1 < (h : Int) ∧
        0 ≤ ((i % w : Nat) : Int) + d.2 ∧ ((i % w : Nat) : Int) + d.2 < (w : Int)) &&
    decide (((((i / w : Nat) : Int) + d.1) * (w : Int) + (((i % w : Nat) : Int) + d.2)).toNat ∈ mines))

theorem adjCode_eq_spec (w h : Nat) (s : List Nat) (i : Nat) :
    adjCode w h s i = specAdjCount w h s i := by
  rw [adjCode, ← List.countP_eq_length_filter]
  simp only [neighborIdsOf, specAdjCount, List.countP_filterMap]
  apply List.countP_congr
  intro d _
  by_cases hc : 0 ≤ ((i / w : Nat) : Int) + d.1 ∧ ((i / w : Nat) : Int) + d.1 < (h : Int) ∧
      0 ≤ ((i % w : Nat) : Int) + d.2 ∧ ((i % w : Nat) : Int) + d.2 < (w : Int)
  · rw [if_pos hc]
    simp only [Option.map_some', Option.getD_some, Bool.and_eq_true, decide_eq_true_eq]
    exact ⟨fun hm => ⟨hc, hm⟩, And.right⟩
  · rw [if_neg hc]
    simp only [Option.map_none', Option.getD_none, Bool.and_eq_true, decide_eq_true_eq]
    exact iff_of_false (by simp) (fun hp => hc hp.1)

/-- C6: after `setup`, every non-mine tile's `adjacent_mines` equals the
brute-force count of its in-bounds 8-neighbors whose ids are in the mine
list `tiles_with_mines`; the offset table `SHIFT` consists of exactly eight
distinct offsets, each drawn from the unit square minus the origin. -/
theorem c6_adjacent_count (w h i : Nat) (s : List Nat) (hw : 1 ≤ w)
    (hi : i < w * h) (hnm : i ∉ s) :
    ((setupWith w h s).tiles.get? i).map Tile.adjacent_mines = some (specAdjCount w h s i) ∧
    ((setupWith w h s).tiles.get? i).map Tile.mine = some false ∧
    (setupWith w h s).tiles_with_mines = s ∧
    ((∀ d ∈ SHIFT, (d.1 = -1 ∨ d.1 = 0 ∨ d.1 = 1) ∧ (d.2 = -1 ∨ d.2 = 0 ∨ d.2 = 1) ∧
      d ≠ (0, 0)) ∧ SHIFT.Nodup ∧ SHIFT.length = 8) := by
  refine ⟨?_, ?_, rfl, by decide⟩
  · rw [setupWith_get?_nonmine w h s i hw hi hnm]
    simp [tileDone, adjCode_eq_spec]
  · rw [setupWith_get?_nonmine w h s i hw hi hnm]
    simp [tileDone]

/-- Witness for `c6_adjacent_count` on a 2-by-2 board with a mine at id 0:
tile 3 counts exactly one adjacent mine. -/
theorem c6_adjacent_count_witness :
    (1 ≤ 2 ∧ 3 < 2 * 2 ∧ 3 ∉ [0]) ∧
    ((setupWith 2 2 [0]).tiles.get? 3).map Tile.adjacent_mines = some (specAdjCount 2 2 [0] 3) ∧
    specAdjCount 2 2 [0] 3 = 1 :=
  ⟨⟨by decide, by decide, by decide⟩,
    (c6_adjacent_count 2 2 3 [0] (by decide) (by decide) (by decide)).1, by decide⟩

/-! ### Flood-fill correctness -/

/-- Tiles some neighbor list of a frontier member contains. -/
def NbrOf (nbrs : NeighborMap) (fr : List Nat) (v : Nat) : Prop :=
  ∃ u ∈ fr, ∃ l, nmFind nbrs u = some l ∧ v ∈ l

/-- The zero-adjacency non-mine tiles the flood fill will use as frontier
members: connected to the initial frontier through tiles that are not
already checked in the tile list `ts`. -/
inductive FloodReach (nbrs : NeighborMap) (ts : List Tile) (frontier : List Nat) : Nat → Prop
  | base (u : Nat) (hu : u ∈ frontier) : FloodReach nbrs ts frontier u
  | step (u v : Nat) (l : List Nat) (hu : FloodReach nbrs ts frontier u)
      (hl : nmFind nbrs u = some l) (hv : v ∈ l)
      (hm : tileMineAt ts v = false) (ha : tileAdjAt ts v = 0)
      (hs : tileStatusAt ts v ≠ TileStatus.checked) : FloodReach nbrs ts frontier v

/-- The tiles the flood fill newly reveals: non-mine neighbors of reached
frontier tiles. -/
def Newly (nbrs : NeighborMap) (ts : List Tile) (frontier : List Nat) (v : Nat) : Prop :=
  ∃ u l, FloodReach nbrs ts frontier u ∧ nmFind nbrs u = some l ∧ v ∈ l ∧
    tileMineAt ts v = false

theorem tileStatusAt_set (ts : List Tile) (nb : Nat) (t : Tile)
    (hg : ts.get? nb = some t) (st : TileStatus) (v : Nat) :
    tileStatusAt (ts.set nb { t with status := st }) v =
      if v = nb then st else tileStatusAt ts v := by
  by_cases hv : v = nb
  · subst hv
    simp only [tileStatusAt, List.get?_set_eq, hg, if_pos rfl]
    rfl
  · simp only [tileStatusAt, List.get?_set_ne _ _ (fun he => hv he.symm), if_neg hv]

theorem tileMineAt_set_status (ts : List Tile) (nb : Nat) (t : Tile)
    (hg : ts.get? nb = some t) (st : TileStatus) (v : Nat) :
    tileMineAt (ts.set nb { t with status := st }) v = tileMineAt ts v := by
  by_cases hv : v = nb
  · subst hv
    simp only [tileMineAt, List.get?_set_eq, hg]
    rfl
  · simp only [tileMineAt, List.get?_set_ne _ _ (fun he => hv he.symm)]

theorem tileAdjAt_set_status (ts : List Tile) (nb : Nat) (t : Tile)
    (hg : ts.get? nb = some t) (st : TileStatus) (v : Nat) :
    tileAdjAt (ts.set nb { t with status := st }) v = tileAdjAt ts v := by
  by_cases hv : v = nb
  · subst hv
    simp only [tileAdjAt, List.get?_set_eq, hg]
    rfl
  · simp only [tileAdjAt, List.get?_set_ne _ _ (fun he => hv he.symm)]

theorem processNeighbors_ok (l : List Nat) :
    ∀ (ts : List Tile) (temp : List Nat), (∀ v ∈ l, v < ts.length) →
    ∃ ts' temp', processNeighbors ts temp l = PyResult.ok (ts', temp') ∧
      ts'.length = ts.length ∧
      (∀ v, tileMineAt ts' v = tileMineAt ts v) ∧
      (∀ v, tileAdjAt ts' v = tileAdjAt ts v) ∧
      (∀ v, tileStatusAt ts' v = TileStatus.checked ↔
        (tileStatusAt ts v = TileStatus.checked ∨ (v ∈ l ∧ tileMineAt ts v = false))) ∧
      (∀ v, tileStatusAt ts' v ≠ tileStatusAt ts v →
        (tileStatusAt ts' v = TileStatus.checked ∧ v ∈ l ∧ tileMineAt ts v = false)) ∧
      (∀ v, v ∈ temp' ↔ (v ∈ temp ∨ (v ∈ l ∧ tileMineAt ts v = false ∧
        tileAdjAt ts v = 0 ∧ tileStatusAt ts v ≠ TileStatus.checked))) := by
  induction l with
  | nil =>
    intro ts temp _
    refine ⟨ts, temp, rfl, rfl, fun v => rfl, fun v => rfl, fun v => by simp,
      fun v hv => absurd rfl hv, fun v => by simp⟩
  | cons nb rest ih =>
    intro ts temp hl
    have hnb : nb < ts.length := hl nb (List.mem_cons_self _ _)
    obtain ⟨t, hg⟩ : ∃ t, ts.get? nb = some t := ⟨_, List.get?_eq_get hnb⟩
    have hmnb : tileMineAt ts nb = t.mine := by unfold tileMineAt; rw [hg]
    have hsnb : tileStatusAt ts nb = t.status := by unfold tileStatusAt; rw [hg]
    have hanb : tileAdjAt ts nb = t.adjacent_mines := by unfold tileAdjAt; rw [hg]
    have hrest : ∀ v ∈ rest, v < ts.length := fun v hv => hl v (List.mem_cons_of_mem _ hv)
    by_cases hmine : t.mine = true
    · have hpn : processNeighbor ts temp nb = PyResult.ok (ts, temp) := by
        simp only [processNeighbor, hg]
        rw [if_pos hmine]
      obtain ⟨ts', temp', heq, hlen, hm, ha, hchk, hfr, htmp⟩ := ih ts temp hrest
      have hmfalse : ∀ v, v = nb → tileMineAt ts v = false → False := by
        intro v he h2
        subst he
        rw [hmnb, hmine] at h2
        exact Bool.noConfusion h2
      refine ⟨ts', temp', by simp only [processNeighbors, hpn]; exact heq, hlen, hm, ha,
        ?_, ?_, ?_⟩
      · intro v
        rw [hchk v]
        constructor
        · rintro (h | ⟨h1, h2⟩)
          · exact Or.inl h
          · exact Or.inr ⟨List.mem_cons_of_mem _ h1, h2⟩
        · rintro (h | ⟨h1, h2⟩)
          · exact Or.inl h
          · rcases List.mem_cons.mp h1 with he | hmem
            · exact absurd h2 (fun h2 => hmfalse v he h2)
            · exact Or.inr ⟨hmem, h2⟩
      · intro v hv
        obtain ⟨h1, h2, h3⟩ := hfr v hv
        exact ⟨h1, List.mem_cons_of_mem _ h2, h3⟩
      · intro v
        rw [htmp v]
        constructor
        · rintro (h | ⟨h1, h2, h3, h4⟩)
          · exact Or.inl h
          · exact Or.inr ⟨List.mem_cons_of_mem _ h1, h2, h3, h4⟩
        · rintro (h | ⟨h1, h2, h3, h4⟩)
          · exact Or.inl h
          · rcases List.mem_cons.mp h1 with he | hmem
            · exact absurd h2 (fun h2 => hmfalse v he h2)
            · exact Or.inr ⟨hmem, h2, h3, h4⟩
    · by_cases hchk0 : t.status = TileStatus.checked
      · have hpn : processNeighbor ts temp nb = PyResult.ok (ts, temp) := by
          simp only [processNeighbor, hg]
          rw [if_neg hmine, if_pos hchk0]
        obtain ⟨ts', temp', heq, hlen, hm, ha, hchk, hfr, htmp⟩ := ih ts temp hrest
        refine ⟨ts', temp', by simp only [processNeighbors, hpn]; exact heq, hlen, hm, ha,
          ?_, ?_, ?_⟩
        · intro v
          rw [hchk v]
          constructor
          · rintro (h | ⟨h1, h2⟩)
            · exact Or.inl h
            · exact Or.inr ⟨List.mem_cons_of_mem _ h1, h2⟩
          · rintro (h | ⟨h1, h2⟩)
            · exact Or.inl h
            · rcases List.mem_cons.mp h1 with he | hmem
              · subst he
                exact Or.inl (hsnb.trans hchk0)
              · exact Or.inr ⟨hmem, h2⟩
        · intro v hv
          obtain ⟨h1, h2, h3⟩ := hfr v hv
          exact ⟨h1, List.mem_cons_of_mem _ h2, h3⟩
        · intro v
          rw [htmp v]
          constructor
          · rintro (h | ⟨h1, h2, h3, h4⟩)
            · exact Or.inl h
            · exact Or.inr ⟨List.mem_cons_of_mem _ h1, h2, h3, h4⟩
          · rintro (h | ⟨h1, h2, h3, h4⟩)
            · exact Or.inl h
            · rcases List.mem_cons.mp h1 with he | hmem
              · subst he
                exact absurd (hsnb.trans hchk0) h4
              · exact Or.inr ⟨hmem, h2, h3, h4⟩
      · have hm1 : ∀ v, tileMineAt (ts.set nb { t with status := TileStatus.checked }) v =
            tileMineAt ts v := tileMineAt_set_status ts nb t hg _
        have ha1 : ∀ v, tileAdjAt (ts.set nb { t with status := TileStatus.checked }) v =
            tileAdjAt ts v := tileAdjAt_set_status ts nb t hg _
        have hs1 : ∀ v, tileStatusAt (ts.set nb { t with status := TileStatus.checked }) v =
            if v = nb then TileStatus.checked else tileStatusAt ts v :=
          tileStatusAt_set ts nb t hg _
        have hlen1 : (ts.set nb { t with status := TileStatus.checked }).length = ts.length :=
          List.length_set _ _ _
        have hrest1 : ∀ v ∈ rest, v < (ts.set nb { t with status := TileStatus.checked }).length := by
          rw [hlen1]
          exact hrest
        have hmfalse : t.mine = false := by
          cases hb : t.mine
          · rfl
          · exact absurd hb hmine
        by_cases hadj : t.adjacent_mines = 0
        · have hpn : processNeighbor ts temp nb =
              PyResult.ok (ts.set nb { t with status := TileStatus.checked }, temp ++ [nb]) := by
            simp only [processNeighbor, hg]
            rw [if_neg hmine, if_neg hchk0, if_pos hadj]
          obtain ⟨ts', temp', heq, hlen, hm, ha, hchk, hfr, htmp⟩ :=
            ih (ts.set nb { t with status := TileStatus.checked }) (temp ++ [nb]) hrest1
          refine ⟨ts', temp', by simp only [processNeighbors, hpn]; exact heq,
            hlen.trans hlen1, fun v => (hm v).trans (hm1 v), fun v => (ha v).trans (ha1 v),
            ?_, ?_, ?_⟩
          · intro v
            rw [hchk v, hs1 v, hm1 v]
            by_cases hv : v = nb
            · subst hv
              rw [if_pos rfl]
              constructor
              · intro _
                exact Or.inr ⟨List.mem_cons_self _ _, hmnb.trans hmfalse⟩
              · intro _
                exact Or.inl rfl
            · rw [if_neg hv]
              constructor
              · rintro (h | ⟨h1, h2⟩)
                · exact Or.inl h
                · exact Or.inr ⟨List.mem_cons_of_mem _ h1, h2⟩
              · rintro (h | ⟨h1, h2⟩)
                · exact Or.inl h
                · rcases List.mem_cons.mp h1 with he | hmem
                  · exact absurd he hv
                  · exact Or.inr ⟨hmem, h2⟩
          · intro v hv
            by_cases hveq : tileStatusAt ts' v = tileStatusAt (ts.set nb { t with status := TileStatus.checked }) v
            · have hne : tileStatusAt (ts.set nb { t with status := TileStatus.checked }) v ≠
                  tileStatusAt ts v := fun he => hv (hveq.trans he)
              rw [hs1 v] at hne hveq
              by_cases hvb : v = nb
              · subst hvb
                rw [if_pos rfl] at hveq
                exact ⟨hveq, List.mem_cons_self _ _, hmnb.trans hmfalse⟩
              · rw [if_neg hvb] at hne
                exact absurd rfl hne
            · obtain ⟨h1, h2, h3⟩ := hfr v hveq
              rw [hm1 v] at h3
              exact ⟨h1, List.mem_cons_of_mem _ h2, h3⟩
          · intro v
            rw [htmp v, hs1 v, hm1 v, ha1 v, List.mem_append, List.mem_singleton]
            by_cases hv : v = nb
            · subst hv
              rw [if_pos rfl]
              constructor
              · rintro ((h | h) | ⟨h1, h2, h3, h4⟩)
                · exact Or.inl h
                · exact Or.inr ⟨List.mem_cons_self _ _, hmnb.trans hmfalse,
                    hanb.trans hadj, fun hc => hchk0 (hsnb.symm.trans hc)⟩
                · exact absurd rfl h4
              · rintro (h | ⟨h1, h2, h3, h4⟩)
                · exact Or.inl (Or.inl h)
                · exact Or.inl (Or.inr rfl)
            · rw [if_neg hv]
              constructor
              · rintro ((h | h) | ⟨h1, h2, h3, h4⟩)
                · exact Or.inl h
                · exact absurd h hv
                · exact Or.inr ⟨List.mem_cons_of_mem _ h1, h2, h3, h4⟩
              · rintro (h | ⟨h1, h2, h3, h4⟩)
                · exact Or.inl (Or.inl h)
                · rcases List.mem_cons.mp h1 with he | hmem
                  · exact absurd he hv
                  · exact Or.inr ⟨hmem, h2, h3, h4⟩
        · have hpn : processNeighbor ts temp nb =
              PyResult.ok (ts.set nb { t with status := TileStatus.checked }, temp) := by
            simp only [processNeighbor, hg]
            rw [if_neg hmine, if_neg hchk0, if_neg hadj]
          obtain ⟨ts', temp', heq, hlen, hm, ha, hchk, hfr, htmp⟩ :=
            ih (ts.set nb { t with status := TileStatus.checked }) temp hrest1
          refine ⟨ts', temp', by simp only [processNeighbors, hpn]; exact heq,
            hlen.trans hlen1, fun v => (hm v).trans (hm1 v), fun v => (ha v).trans (ha1 v),
            ?_, ?_, ?_⟩
          · intro v
            rw [hchk v, hs1 v, hm1 v]
            by_cases hv : v = nb
            · subst hv
              rw [if_pos rfl]
              constructor
              · intro _
                exact Or.inr ⟨List.mem_cons_self _ _, hmnb.trans hmfalse⟩
              · intro _
                exact Or.inl rfl
            · rw [if_neg hv]
              constructor
              · rintro (h | ⟨h1, h2⟩)
                · exact Or.inl h
                · exact Or.inr ⟨List.mem_cons_of_mem _ h1, h2⟩
              · rintro (h | ⟨h1, h2⟩)
                · exact Or.inl h
                · rcases List.mem_cons.mp h1 with he | hmem
                  · exact absurd he hv
                  · exact Or.inr ⟨hmem, h2⟩
          · intro v hv
            by_cases hveq : tileStatusAt ts' v = tileStatusAt (ts.set nb { t with status := TileStatus.checked }) v
            · have hne : tileStatusAt (ts.set nb { t with status := TileStatus.checked }) v ≠
                  tileStatusAt ts v := fun he => hv (hveq.trans he)
              rw [hs1 v] at hne hveq
              by_cases hvb : v = nb
              · subst hvb
                rw [if_pos rfl] at hveq
                exact ⟨hveq, List.mem_cons_self _ _, hmnb.trans hmfalse⟩
              · rw [if_neg hvb] at hne
                exact absurd rfl hne
            · obtain ⟨h1, h2, h3⟩ := hfr v hveq
              rw [hm1 v] at h3
              exact ⟨h1, List.mem_cons_of_mem _ h2, h3⟩
          · intro v
            rw [htmp v, hs1 v, hm1 v, ha1 v]
            by_cases hv : v = nb
            · subst hv
              rw [if_pos rfl]
              constructor
              · rintro (h | ⟨h1, h2, h3, h4⟩)
                · exact Or.inl h
                · exact absurd rfl h4
              · rintro (h | ⟨h1, h2, h3, h4⟩)
                · exact Or.inl h
                · exact absurd (hanb.symm.trans h3) hadj
            · rw [if_neg hv]
              constructor
              · rintro (h | ⟨h1, h2, h3, h4⟩)
                · exact Or.inl h
                · exact Or.inr ⟨List.mem_cons_of_mem _ h1, h2, h3, h4⟩
              · rintro (h | ⟨h1, h2, h3, h4⟩)
                · exact Or.inl h
                · rcases List.mem_cons.mp h1 with he | hmem
                  · exact absurd he hv
                  · exact Or.inr ⟨hmem, h2, h3, h4⟩

theorem floodPass_ok (nbrs : NeighborMap) (fr : List Nat) :
    ∀ (ts : List Tile) (temp : List Nat),
    (∀ u ∈ fr, ∃ l, nmFind nbrs u = some l) →
    (∀ u l, nmFind nbrs u = some l → ∀ v ∈ l, v < ts.length) →
    ∃ ts' temp', floodPass nbrs ts temp fr = PyResult.ok (ts', temp') ∧
      ts'.length = ts.length ∧
      (∀ v, tileMineAt ts' v = tileMineAt ts v) ∧
      (∀ v, tileAdjAt ts' v = tileAdjAt ts v) ∧
      (∀ v, tileStatusAt ts' v = TileStatus.checked ↔
        (tileStatusAt ts v = TileStatus.checked ∨ (NbrOf nbrs fr v ∧ tileMineAt ts v = false))) ∧
      (∀ v, tileStatusAt ts' v ≠ tileStatusAt ts v →
        (tileStatusAt ts' v = TileStatus.checked ∧ NbrOf nbrs fr v ∧ tileMineAt ts v = false)) ∧
      (∀ v, v ∈ temp' ↔ (v ∈ temp ∨ (NbrOf nbrs fr v ∧ tileMineAt ts v = false ∧
        tileAdjAt ts v = 0 ∧ tileStatusAt ts v ≠ TileStatus.checked))) := by
  induction fr with
  | nil =>
    intro ts temp _ _
    refine ⟨ts, temp, rfl, rfl, fun v => rfl, fun v => rfl, ?_, ?_, ?_⟩
    · intro v
      constructor
      · exact Or.inl
      · rintro (h | ⟨⟨u, hu, _⟩, _⟩)
        · exact h
        · exact absurd hu (List.not_mem_nil u)
    · intro v hv
      exact absurd rfl hv
    · intro v
      constructor
      · exact Or.inl
      · rintro (h | ⟨⟨u, hu, _⟩, _⟩)
        · exact h
        · exact absurd hu (List.not_mem_nil u)
  | cons u0 fr' ih =>
    intro ts temp hdef hbound
    obtain ⟨l0, hl0⟩ := hdef u0 (List.mem_cons_self u0 fr')
    have hl0b : ∀ v ∈ l0, v < ts.length := hbound u0 l0 hl0
    obtain ⟨ts1, temp1, heq1, hlen1, hm1, ha1, hchk1, hfr1, htmp1⟩ :=
      processNeighbors_ok l0 ts temp hl0b
    have hbound1 : ∀ u l, nmFind nbrs u = some l → ∀ v ∈ l, v < ts1.length := by
      intro u l hul v hv
      rw [hlen1]
      exact hbound u l hul v hv
    obtain ⟨ts', temp', heq2, hlen2, hm2, ha2, hchk2, hfr2, htmp2⟩ :=
      ih ts1 temp1 (fun u hu => hdef u (List.mem_cons_of_mem _ hu)) hbound1
    have hNsplit : ∀ v, NbrOf nbrs (u0 :: fr') v ↔ ((v ∈ l0) ∨ NbrOf nbrs fr' v) := by
      intro v
      constructor
      · rintro ⟨u, hu, l, hul, hvl⟩
        rcases List.mem_cons.mp hu with he | hmem
        · subst he
          rw [hl0] at hul
          cases hul
          exact Or.inl hvl
        · exact Or.inr ⟨u, hmem, l, hul, hvl⟩
      · rintro (h | ⟨u, hu, l, hul, hvl⟩)
        · exact ⟨u0, List.mem_cons_self _ _, l0, hl0, h⟩
        · exact ⟨u, List.mem_cons_of_mem _ hu, l, hul, hvl⟩
    have hpt : processTile nbrs ts temp u0 = PyResult.ok (ts1, temp1) := by
      simp only [processTile, hl0]
      exact heq1
    refine ⟨ts', temp', ?_, hlen2.trans hlen1,
      fun v => (hm2 v).trans (hm1 v), fun v => (ha2 v).trans (ha1 v), ?_, ?_, ?_⟩
    · simp only [floodPass, hpt]
      exact heq2
    · intro v
      rw [hchk2 v, hchk1 v, hm1 v, hNsplit v]
      constructor
      · rintro ((h | ⟨h1, h2⟩) | ⟨h1, h2⟩)
        · exact Or.inl h
        · exact Or.inr ⟨Or.inl h1, h2⟩
        · exact Or.inr ⟨Or.inr h1, h2⟩
      · rintro (h | ⟨(h1 | h1), h2⟩)
        · exact Or.inl (Or.inl h)
        · exact Or.inl (Or.inr ⟨h1, h2⟩)
        · exact Or.inr ⟨h1, h2⟩
    · intro v hv
      by_cases hveq : tileStatusAt ts' v = tileStatusAt ts1 v
      · have hne : tileStatusAt ts1 v ≠ tileStatusAt ts v := fun he => hv (hveq.trans he)
        obtain ⟨h1, h2, h3⟩ := hfr1 v hne
        exact ⟨hveq.trans h1, (hNsplit v).mpr (Or.inl h2), h3⟩
      · obtain ⟨h1, h2, h3⟩ := hfr2 v hveq
        rw [hm1 v] at h3
        refine ⟨h1, (hNsplit v).mpr (Or.inr h2), h3⟩
    · intro v
      rw [htmp2 v, htmp1 v, hm1 v, ha1 v, hNsplit v]
      have hmono : tileStatusAt ts v = TileStatus.checked →
          tileStatusAt ts1 v = TileStatus.checked := fun h => (hchk1 v).mpr (Or.inl h)
      constructor
      · rintro ((h | ⟨h1, h2, h3, h4⟩) | ⟨h1, h2, h3, h4⟩)
        · exact Or.inl h
        · exact Or.inr ⟨Or.inl h1, h2, h3, h4⟩
        · refine Or.inr ⟨Or.inr h1, h2, h3, fun hc => h4 (hmono hc)⟩
      · rintro (h | ⟨(h1 | h1), h2, h3, h4⟩)
        · exact Or.inl (Or.inl h)
        · exact Or.inl (Or.inr ⟨h1, h2, h3, h4⟩)
        · by_cases hc1 : tileStatusAt ts1 v = TileStatus.checked
          · rcases (hchk1 v).mp hc1 with hc | ⟨hcl, _⟩
            · exact absurd hc h4
            · exact Or.inl (Or.inr ⟨hcl, h2, h3, h4⟩)
          · exact Or.inr ⟨h1, h2, h3, hc1⟩

/-- Number of not-yet-checked tiles: the flood fill's termination measure. -/
def uncheckedCount (ts : List Tile) : Nat :=
  (List.range ts.length).countP (fun i => decide (tileStatusAt ts i ≠ TileStatus.checked))

theorem countP_lt_of_witness {α : Type} (l : List α) (p q : α → Bool)
    (hpq : ∀ a ∈ l, p a = true → q a = true) (a : α) (ha : a ∈ l)
    (hpa : p a = false) (hqa : q a = true) : l.countP p < l.countP q := by
  induction l with
  | nil => exact absurd ha (List.not_mem_nil a)
  | cons x xs ih =>
    have e1 : (if (false : Bool) = true then 1 else 0) = 0 := rfl
    have e2 : (if (true : Bool) = true then 1 else 0) = 1 := rfl
    rw [List.countP_cons, List.countP_cons]
    rcases List.mem_cons.mp ha with he | hmem
    · subst he
      rw [hpa, hqa, e1, e2]
      have : xs.countP p ≤ xs.countP q :=
        List.countP_mono_left (fun b hb => hpq b (List.mem_cons_of_mem _ hb))
      omega
    · have hlt : xs.countP p < xs.countP q :=
        ih (fun b hb => hpq b (List.mem_cons_of_mem _ hb)) hmem
      by_cases hx : p x = true
      · rw [hx, hpq x (List.mem_cons_self _ _) hx, e2]
        omega
      · rw [Bool.not_eq_true] at hx
        rw [hx, e1]
        by_cases hqx : q x = true
        · rw [hqx, e2]
          omega
        · rw [Bool.not_eq_true] at hqx
          rw [hqx, e1]
          omega

theorem uncheckedCount_lt (ts ts1 : List Tile) (hlen : ts1.length = ts.length)
    (hmono : ∀ v, tileStatusAt ts v = TileStatus.checked →
      tileStatusAt ts1 v = TileStatus.checked)
    (u : Nat) (hu : u < ts.length)
    (hu1 : tileStatusAt ts u ≠ TileStatus.checked)
    (hu2 : tileStatusAt ts1 u = TileStatus.checked) :
    uncheckedCount ts1 < uncheckedCount ts := by
  unfold uncheckedCount
  rw [hlen]
  apply countP_lt_of_witness (List.range ts.length) _ _ ?_ u (List.mem_range.mpr hu)
  · rw [decide_eq_false_iff_not]
    intro hne
    exact hne hu2
  · exact decide_eq_true hu1
  · intro a _ hp
    rw [decide_eq_true_eq] at hp
    rw [decide_eq_true_eq]
    intro hc
    exact hp (hmono a hc)

theorem uncheckedCount_le (ts : List Tile) : uncheckedCount ts ≤ ts.length := by
  unfold uncheckedCount
  calc (List.range ts.length).countP _ ≤ (List.range ts.length).length :=
        List.countP_le_length _
    _ = ts.length := List.length_range _

theorem floodLoop_nil (nbrs : NeighborMap) (fuel : Nat) (ts : List Tile) :
    floodLoop nbrs fuel ts [] = PyResult.ok ts := by
  cases fuel <;> rfl

theorem floodReach_nil (nbrs : NeighborMap) (ts : List Tile) (x : Nat)
    (hx : FloodReach nbrs ts [] x) : False := by
  induction hx with
  | base u hu => exact absurd hu (List.not_mem_nil u)
  | step u v l hu hl hv hm ha hs ih => exact ih

theorem floodReach_decomp (nbrs : NeighborMap) (ts ts1 : List Tile)
    (fr temp : List Nat)
    (hmine : ∀ v, tileMineAt ts1 v = tileMineAt ts v)
    (hadj : ∀ v, tileAdjAt ts1 v = tileAdjAt ts v)
    (hchk : ∀ v, tileStatusAt ts1 v = TileStatus.checked ↔
      (tileStatusAt ts v = TileStatus.checked ∨
        (NbrOf nbrs fr v ∧ tileMineAt ts v = false)))
    (htemp : ∀ v, v ∈ temp ↔ (NbrOf nbrs fr v ∧ tileMineAt ts v = false ∧
      tileAdjAt ts v = 0 ∧ tileStatusAt ts v ≠ TileStatus.checked)) :
    ∀ x, FloodReach nbrs ts fr x ↔ (x ∈ fr ∨ FloodReach nbrs ts1 temp x) := by
  intro x
  constructor
  · intro hx
    induction hx with
    | base u hu => exact Or.inl hu
    | step u v l hu hl hv hm ha hs ih =>
      rcases ih with hufr | hu1
      · exact Or.inr (FloodReach.base v
          ((htemp v).mpr ⟨⟨u, hufr, l, hl, hv⟩, hm, ha, hs⟩))
      · by_cases hnv : NbrOf nbrs fr v ∧ tileMineAt ts v = false
        · exact Or.inr (FloodReach.base v ((htemp v).mpr ⟨hnv.1, hnv.2, ha, hs⟩))
        · refine Or.inr (FloodReach.step u v l hu1 hl hv ((hmine v).trans hm)
            ((hadj v).trans ha) ?_)
          intro hc
          rcases (hchk v).mp hc with hc1 | hc2
          · exact hs hc1
          · exact hnv hc2
  · rintro (hx | hx)
    · exact FloodReach.base x hx
    · induction hx with
      | base u hu =>
        obtain ⟨⟨u0, hu0, l0, hl0, hvl0⟩, hm0, ha0, hs0⟩ := (htemp u).mp hu
        exact FloodReach.step u0 u l0 (FloodReach.base u0 hu0) hl0 hvl0 hm0 ha0 hs0
      | step u v l hu hl hv hm ha hs ih =>
        refine FloodReach.step u v l ih hl hv ((hmine v).symm.trans hm)
          ((hadj v).symm.trans ha) ?_
        intro hc
        exact hs ((hchk v).mpr (Or.inl hc))

theorem newly_split (nbrs : NeighborMap) (ts ts1 : List Tile)
    (fr temp : List Nat)
    (hmine : ∀ v, tileMineAt ts1 v = tileMineAt ts v)
    (hadj : ∀ v, tileAdjAt ts1 v = tileAdjAt ts v)
    (hchk : ∀ v, tileStatusAt ts1 v = TileStatus.checked ↔
      (tileStatusAt ts v = TileStatus.checked ∨
        (NbrOf nbrs fr v ∧ tileMineAt ts v = false)))
    (htemp : ∀ v, v ∈ temp ↔ (NbrOf nbrs fr v ∧ tileMineAt ts v = false ∧
      tileAdjAt ts v = 0 ∧ tileStatusAt ts v ≠ TileStatus.checked)) :
    ∀ v, Newly nbrs ts fr v ↔
      ((NbrOf nbrs fr v ∧ tileMineAt ts v = false) ∨ Newly nbrs ts1 temp v) := by
  intro v
  constructor
  · rintro ⟨u, l, hu, hul, hvl, hmv⟩
    rcases (floodReach_decomp nbrs ts ts1 fr temp hmine hadj hchk htemp u).mp hu with h | h
    · exact Or.inl ⟨⟨u, h, l, hul, hvl⟩, hmv⟩
    · exact Or.inr ⟨u, l, h, hul, hvl, (hmine v).trans hmv⟩
  · rintro (⟨⟨u, hu, l, hul, hvl⟩, hmv⟩ | ⟨u, l, hu, hul, hvl, hmv⟩)
    · exact ⟨u, l, FloodReach.base u hu, hul, hvl, hmv⟩
    · exact ⟨u, l,
        (floodReach_decomp nbrs ts ts1 fr temp hmine hadj hchk htemp u).mpr (Or.inr hu),
        hul, hvl, (hmine v).symm.trans hmv⟩

theorem floodLoop_ok (nbrs : NeighborMap) (n : Nat)
    (hnb : ∀ u l, nmFind nbrs u = some l → ∀ v ∈ l, v < n) :
    ∀ (fuel : Nat) (ts : List Tile) (frontier : List Nat),
    ts.length = n →
    (∀ u ∈ frontier, tileMineAt ts u = false ∧ tileAdjAt ts u = 0 ∧
      tileStatusAt ts u = TileStatus.checked ∧ u < n) →
    (∀ v, v < n → tileMineAt ts v = false → ∃ l, nmFind nbrs v = some l) →
    uncheckedCount ts + 1 ≤ fuel →
    ∃ ts', floodLoop nbrs fuel ts frontier = PyResult.ok ts' ∧
      ts'.length = n ∧
      (∀ v, tileMineAt ts' v = tileMineAt ts v) ∧
      (∀ v, tileAdjAt ts' v = tileAdjAt ts v) ∧
      (∀ v, tileStatusAt ts' v = TileStatus.checked ↔
        (tileStatusAt ts v = TileStatus.checked ∨ Newly nbrs ts frontier v)) ∧
      (∀ v, tileStatusAt ts' v ≠ tileStatusAt ts v →
        (tileStatusAt ts' v = TileStatus.checked ∧ Newly nbrs ts frontier v)) := by
  intro fuel
  induction fuel with
  | zero =>
    intro ts frontier _ _ _ hfuel
    omega
  | succ f ihf =>
    intro ts frontier hlen hfr hHN hfuel
    cases frontier with
    | nil =>
      refine ⟨ts, floodLoop_nil nbrs _ ts, hlen, fun v => rfl, fun v => rfl, ?_, ?_⟩
      · intro v
        constructor
        · exact Or.inl
        · rintro (h | ⟨u, l, hu, _⟩)
          · exact h
          · exact absurd hu (floodReach_nil nbrs ts u)
      · intro v hv
        exact absurd rfl hv
    | cons u0 fr' =>
      have hdef : ∀ u ∈ u0 :: fr', ∃ l, nmFind nbrs u = some l := by
        intro u hu
        obtain ⟨hm, _, _, hlt⟩ := hfr u hu
        exact hHN u hlt hm
      have hbound : ∀ u l, nmFind nbrs u = some l → ∀ v ∈ l, v < ts.length := by
        intro u l hul v hv
        rw [hlen]
        exact hnb u l hul v hv
      obtain ⟨ts1, temp, hpeq, hplen, hpm, hpa, hpchk, hpfr, hptmp⟩ :=
        floodPass_ok nbrs (u0 :: fr') ts [] hdef hbound
      have htempC : ∀ v, v ∈ temp ↔ (NbrOf nbrs (u0 :: fr') v ∧ tileMineAt ts v = false ∧
          tileAdjAt ts v = 0 ∧ tileStatusAt ts v ≠ TileStatus.checked) := by
        intro v
        rw [hptmp v]
        constructor
        · rintro (h | h)
          · exact absurd h (List.not_mem_nil v)
          · exact h
        · exact Or.inr
      have hrun : floodLoop nbrs (f + 1) ts (u0 :: fr') =
          (match floodPass nbrs ts [] (u0 :: fr') with
            | PyResult.ok (ts1, temp) => floodLoop nbrs f ts1 temp
            | PyResult.exn e (ts1, _) => PyResult.exn e ts1) := rfl
      have hnsplit := newly_split nbrs ts ts1 (u0 :: fr') temp hpm hpa hpchk htempC
      have hmono : ∀ v, tileStatusAt ts v = TileStatus.checked →
          tileStatusAt ts1 v = TileStatus.checked := fun v h => (hpchk v).mpr (Or.inl h)
      by_cases htnil : temp = []
      · subst htnil
        refine ⟨ts1, ?_, hplen.trans hlen, hpm, hpa, ?_, ?_⟩
        · rw [hrun, hpeq]
          exact floodLoop_nil nbrs f ts1
        · intro v
          rw [hpchk v]
          constructor
          · rintro (h | ⟨h1, h2⟩)
            · exact Or.inl h
            · exact Or.inr ((hnsplit v).mpr (Or.inl ⟨h1, h2⟩))
          · rintro (h | h)
            · exact Or.inl h
            · rcases (hnsplit v).mp h with ⟨h1, h2⟩ | ⟨u, l, hu, _⟩
              · exact Or.inr ⟨h1, h2⟩
              · exact absurd hu (floodReach_nil nbrs ts1 u)
        · intro v hv
          obtain ⟨h1, h2, h3⟩ := hpfr v hv
          exact ⟨h1, (hnsplit v).mpr (Or.inl ⟨h2, h3⟩)⟩
      · obtain ⟨u1, hu1⟩ := List.exists_mem_of_ne_nil temp htnil
        obtain ⟨hn1, hm1, ha1, hs1⟩ := (htempC u1).mp hu1
        have hu1lt : u1 < n := by
          obtain ⟨u, hu, l, hul, hvl⟩ := hn1
          exact hnb u l hul u1 hvl
        have hdec : uncheckedCount ts1 < uncheckedCount ts := by
          refine uncheckedCount_lt ts ts1 hplen hmono u1 (by omega) hs1 ?_
          exact (hpchk u1).mpr (Or.inr ⟨hn1, hm1⟩)
        have hfr1 : ∀ u ∈ temp, tileMineAt ts1 u = false ∧ tileAdjAt ts1 u = 0 ∧
            tileStatusAt ts1 u = TileStatus.checked ∧ u < n := by
          intro u hu
          obtain ⟨hnu, hmu, hau, hsu⟩ := (htempC u).mp hu
          have hult : u < n := by
            obtain ⟨u2, hu2, l, hul, hvl⟩ := hnu
            exact hnb u2 l hul u hvl
          exact ⟨(hpm u).trans hmu, (hpa u).trans hau,
            (hpchk u).mpr (Or.inr ⟨hnu, hmu⟩), hult⟩
        have hHN1 : ∀ v, v < n → tileMineAt ts1 v = false → ∃ l, nmFind nbrs v = some l := by
          intro v hv hm
          rw [hpm v] at hm
          exact hHN v hv hm
        obtain ⟨ts', hleq, hlen', hm', ha', hchk', hfr'⟩ :=
          ihf ts1 temp (hplen.trans hlen) hfr1 hHN1 (by omega)
        refine ⟨ts', ?_, hlen', fun v => (hm' v).trans (hpm v),
          fun v => (ha' v).trans (hpa v), ?_, ?_⟩
        · rw [hrun, hpeq]
          exact hleq
        · intro v
          rw [hchk' v, hpchk v]
          constructor
          · rintro ((h | ⟨h1, h2⟩) | h)
            · exact Or.inl h
            · exact Or.inr ((hnsplit v).mpr (Or.inl ⟨h1, h2⟩))
            · exact Or.inr ((hnsplit v).mpr (Or.inr h))
          · rintro (h | h)
            · exact Or.inl (Or.inl h)
            · rcases (hnsplit v).mp h with ⟨h1, h2⟩ | h3
              · exact Or.inl (Or.inr ⟨h1, h2⟩)
              · exact Or.inr h3
        · intro v hv
          by_cases hveq : tileStatusAt ts' v = tileStatusAt ts1 v
          · have hne : tileStatusAt ts1 v ≠ tileStatusAt ts v := fun he => hv (hveq.trans he)
            obtain ⟨h1, h2, h3⟩ := hpfr v hne
            exact ⟨hveq.trans h1, (hnsplit v).mpr (Or.inl ⟨h2, h3⟩)⟩
          · obtain ⟨h1, h2⟩ := hfr' v hveq
            exact ⟨h1, (hnsplit v).mpr (Or.inr h2)⟩

/-! ### The zero-adjacency region of the spec and the mid-game board -/

/-- The connected zero-adjacency region containing `t` (per the claim): `t`
itself, closed under stepping to in-bounds 8-neighbors that are non-mine
and have reference adjacency count zero. -/
inductive InRegion (w h : Nat) (mines : List Nat) (t : Nat) : Nat → Prop
  | base : InRegion w h mines t t
  | step (u v : Nat) (hu : InRegion w h mines t u)
      (hv : v ∈ neighborIdsOf w h (u / w) (u % w)) (hm : v ∉ mines)
      (ha : specAdjCount w h mines v = 0) : InRegion w h mines t v

/-- The region together with its boundary ring: non-mine neighbors of
region tiles whose adjacency count is positive. -/
def InReveal (w h : Nat) (mines : List Nat) (t v : Nat) : Prop :=
  InRegion w h mines t v ∨
    ∃ u, InRegion w h mines t u ∧ v ∈ neighborIdsOf w h (u / w) (u % w) ∧
      v ∉ mines ∧ 0 < specAdjCount w h mines v

/-- A mid-game board: a freshly set-up board whose tile statuses have been
rewritten arbitrarily (play only ever rewrites statuses). -/
def midBoard (w h : Nat) (s : List Nat) (sts : Nat → TileStatus) : Board :=
  withStatuses (setupWith w h s) sts

theorem withStatuses_get? (b : Board) (sts : Nat → TileStatus) (i : Nat) :
    (withStatuses b sts).tiles.get? i =
      (b.tiles.get? i).map (fun t => { t with status := sts t.id }) :=
  List.get?_map _ _ _

theorem neighborIdsOf_lt (w h r c : Nat) (v : Nat)
    (hv : v ∈ neighborIdsOf w h r c) : v < w * h := by
  simp only [neighborIdsOf, List.mem_filterMap] at hv
  obtain ⟨d, _, hd⟩ := hv
  split_ifs at hd with hc
  · obtain ⟨h1, h2, h3, h4⟩ := hc
    cases hd
    have hb1 : ((r : Int) + d.1 + 1) * (w : Int) ≤ (h : Int) * (w : Int) :=
      mul_le_mul_of_nonneg_right (by omega) (by positivity)
    have hb2 : ((r : Int) + d.1) * (w : Int) + ((c : Int) + d.2) <
        ((r : Int) + d.1 + 1) * (w : Int) := by
      have he : ((r : Int) + d.1 + 1) * (w : Int) = ((r : Int) + d.1) * (w : Int) + w := by
        ring
      rw [he]
      linarith
    have hb3 : ((r : Int) + d.1) * (w : Int) + ((c : Int) + d.2) < ((w * h : Nat) : Int) := by
      push_cast
      calc ((r : Int) + d.1) * (w : Int) + ((c : Int) + d.2) <
            ((r : Int) + d.1 + 1) * (w : Int) := hb2
        _ ≤ (h : Int) * (w : Int) := hb1
        _ = (w : Int) * (h : Int) := by ring
    have hb0 : 0 ≤ ((r : Int) + d.1) * (w : Int) + ((c : Int) + d.2) := by
      have : 0 ≤ ((r : Int) + d.1) * (w : Int) := mul_nonneg h1 (by positivity)
      omega
    omega

theorem inRegion_facts (w h t : Nat) (s : List Nat) (ht : t < w * h) (hts : t ∉ s)
    (ha : specAdjCount w h s t = 0) :
    ∀ x, InRegion w h s t x → x < w * h ∧ x ∉ s ∧ specAdjCount w h s x = 0 := by
  intro x hx
  induction hx with
  | base => exact ⟨ht, hts, ha⟩
  | step u v hu hv hm hadj ih => exact ⟨neighborIdsOf_lt w h _ _ v hv, hm, hadj⟩

theorem midBoard_length (w h : Nat) (s : List Nat) (sts : Nat → TileStatus)
    (hw : 1 ≤ w) : (midBoard w h s sts).tiles.length = w * h := by
  unfold midBoard withStatuses
  rw [List.length_map]
  exact setupWith_length w h s hw

theorem midBoard_status (w h : Nat) (s : List Nat) (sts : Nat → TileStatus) (v : Nat)
    (hw : 1 ≤ w) (hv : v < w * h) :
    tileStatusAt (midBoard w h s sts).tiles v = sts v := by
  unfold midBoard tileStatusAt
  rw [withStatuses_get?]
  by_cases hs : v ∈ s
  · rw [setupWith_get?_mine w h s v hw hv hs]
    rfl
  · rw [setupWith_get?_nonmine w h s v hw hv hs]
    rfl

theorem midBoard_mine (w h : Nat) (s : List Nat) (sts : Nat → TileStatus) (v : Nat)
    (hw : 1 ≤ w) (hv : v < w * h) :
    tileMineAt (midBoard w h s sts).tiles v = decide (v ∈ s) := by
  unfold midBoard tileMineAt
  rw [withStatuses_get?]
  by_cases hs : v ∈ s
  · rw [setupWith_get?_mine w h s v hw hv hs]
    simp [tileInit, hs]
  · rw [setupWith_get?_nonmine w h s v hw hv hs]
    simp [tileDone, hs]

theorem midBoard_adj (w h : Nat) (s : List Nat) (sts : Nat → TileStatus) (v : Nat)
    (hw : 1 ≤ w) (hv : v < w * h) (hns : v ∉ s) :
    tileAdjAt (midBoard w h s sts).tiles v = adjCode w h s v := by
  unfold midBoard tileAdjAt
  rw [withStatuses_get?, setupWith_get?_nonmine w h s v hw hv hns]
  rfl

theorem midBoard_nbrs (w h : Nat) (s : List Nat) (sts : Nat → TileStatus) (q : Nat)
    (hw : 1 ≤ w) :
    nmFind (midBoard w h s sts).neighbors q =
      if q < w * h ∧ q ∉ s then some (neighborIdsOf w h (q / w) (q % w)) else none :=
  setupWith_nmFind w h s q hw

/-- The tile `_click_tile` finds at index `t` on a mid-game board after the
initial `_release_tiles`, when `t` is not a mine. -/
def clickedTile (w h : Nat) (s : List Nat) (sts : Nat → TileStatus) (t : Nat) : Tile :=
  { id := t, mine := false, pressed := false, status := sts t,
    adjacent_mines := adjCode w h s t, row := t / w, col := t % w }

theorem tileMineAt_release (b : Board) (v : Nat) :
    tileMineAt (release_tiles b).tiles v = tileMineAt b.tiles v := by
  unfold tileMineAt
  rw [release_tiles_get?]
  cases b.tiles.get? v <;> rfl

theorem tileAdjAt_release (b : Board) (v : Nat) :
    tileAdjAt (release_tiles b).tiles v = tileAdjAt b.tiles v := by
  unfold tileAdjAt
  rw [release_tiles_get?]
  cases b.tiles.get? v <;> rfl

theorem tileStatusAt_release (b : Board) (v : Nat) :
    tileStatusAt (release_tiles b).tiles v = tileStatusAt b.tiles v := by
  unfold tileStatusAt
  rw [release_tiles_get?]
  cases b.tiles.get? v <;> rfl

theorem midBoard_release_get? (w h : Nat) (s : List Nat) (sts : Nat → TileStatus)
    (t : Nat) (hw : 1 ≤ w) (ht : t < w * h) (hts : t ∉ s) :
    (release_tiles (midBoard w h s sts)).tiles.get? t =
      some (clickedTile w h s sts t) := by
  rw [release_tiles_get?]
  unfold midBoard
  rw [withStatuses_get?, setupWith_get?_nonmine w h s t hw ht hts]
  rfl

/-- The tile list on which the flood fill starts after clicking tile `t` on
a mid-game board. -/
def clickedTiles (w h : Nat) (s : List Nat) (sts : Nat → TileStatus) (t : Nat) : List Tile :=
  (release_tiles (midBoard w h s sts)).tiles.set t
    { clickedTile w h s sts t with status := TileStatus.checked }

theorem clickedTiles_mine (w h t : Nat) (s : List Nat) (sts : Nat → TileStatus)
    (hw : 1 ≤ w) (ht : t < w * h) (hts : t ∉ s) (v : Nat) (hv : v < w * h) :
    tileMineAt (clickedTiles w h s sts t) v = decide (v ∈ s) := by
  unfold clickedTiles
  rw [tileMineAt_set_status _ t _ (midBoard_release_get? w h s sts t hw ht hts) _ v,
    tileMineAt_release]
  exact midBoard_mine w h s sts v hw hv

theorem clickedTiles_adj (w h t : Nat) (s : List Nat) (sts : Nat → TileStatus)
    (hw : 1 ≤ w) (ht : t < w * h) (hts : t ∉ s) (v : Nat) (hv : v < w * h) (hvs : v ∉ s) :
    tileAdjAt (clickedTiles w h s sts t) v = adjCode w h s v := by
  unfold clickedTiles
  rw [tileAdjAt_set_status _ t _ (midBoard_release_get? w h s sts t hw ht hts) _ v,
    tileAdjAt_release]
  exact midBoard_adj w h s sts v hw hv hvs

theorem clickedTiles_status (w h t : Nat) (s : List Nat) (sts : Nat → TileStatus)
    (hw : 1 ≤ w) (ht : t < w * h) (hts : t ∉ s) (v : Nat) (hv : v < w * h) :
    tileStatusAt (clickedTiles w h s sts t) v =
      if v = t then TileStatus.checked else sts v := by
  unfold clickedTiles
  rw [tileStatusAt_set _ t _ (midBoard_release_get? w h s sts t hw ht hts) _ v]
  by_cases hvt : v = t
  · rw [if_pos hvt, if_pos hvt]
  · rw [if_neg hvt, if_neg hvt, tileStatusAt_release]
    exact midBoard_status w h s sts v hw hv

theorem clickedTiles_length (w h t : Nat) (s : List Nat) (sts : Nat → TileStatus)
    (hw : 1 ≤ w) : (clickedTiles w h s sts t).length = w * h := by
  unfold clickedTiles
  rw [List.length_set, release_tiles_length]
  exact midBoard_length w h s sts hw

theorem floodReach_iff_inRegion (w h t : Nat) (s : List Nat) (sts : Nat → TileStatus)
    (hw : 1 ≤ w) (ht : t < w * h) (hts : t ∉ s) (ha : specAdjCount w h s t = 0)
    (hproviso : ∀ v, InRegion w h s t v → sts v ≠ TileStatus.checked) :
    ∀ x, FloodReach (midBoard w h s sts).neighbors (clickedTiles w h s sts t) [t] x ↔
      InRegion w h s t x := by
  intro x
  constructor
  · intro hx
    induction hx with
    | base u hu =>
      rw [List.mem_singleton] at hu
      subst hu
      exact InRegion.base
    | step u v l hu hl hv hm hadj hst ih =>
      rw [midBoard_nbrs w h s sts u hw] at hl
      split_ifs at hl with hc
      · cases hl
        have hvlt : v < w * h := neighborIdsOf_lt w h _ _ v hv
        have hvs : v ∉ s := by
          rw [clickedTiles_mine w h t s sts hw ht hts v hvlt] at hm
          rw [decide_eq_false_iff_not] at hm
          exact hm
        have hvadj : specAdjCount w h s v = 0 := by
          rw [clickedTiles_adj w h t s sts hw ht hts v hvlt hvs,
            adjCode_eq_spec] at hadj
          exact hadj
        exact InRegion.step u v ih hv hvs hvadj
  · intro hx
    induction hx with
    | base => exact FloodReach.base t (List.mem_singleton.mpr rfl)
    | step u v hu hv hm hadj ih =>
      obtain ⟨hult, hus, _⟩ := inRegion_facts w h t s ht hts ha u hu
      have hvlt : v < w * h := neighborIdsOf_lt w h _ _ v hv
      by_cases hvt : v = t
      · subst hvt
        exact FloodReach.base v (List.mem_singleton.mpr rfl)
      · refine FloodReach.step u v (neighborIdsOf w h (u / w) (u % w)) ih ?_ hv ?_ ?_ ?_
        · rw [midBoard_nbrs w h s sts u hw, if_pos ⟨hult, hus⟩]
        · rw [clickedTiles_mine w h t s sts hw ht hts v hvlt]
          exact decide_eq_false hm
        · rw [clickedTiles_adj w h t s sts hw ht hts v hvlt hm, adjCode_eq_spec]
          exact hadj
        · rw [clickedTiles_status w h t s sts hw ht hts v hvlt, if_neg hvt]
          exact hproviso v (InRegion.step u v hu hv hm hadj)

theorem newly_iff_boundary (w h t : Nat) (s : List Nat) (sts : Nat → TileStatus)
    (hw : 1 ≤ w) (ht : t < w * h) (hts : t ∉ s) (ha : specAdjCount w h s t = 0)
    (hproviso : ∀ v, InRegion w h s t v → sts v ≠ TileStatus.checked) :
    ∀ v, Newly (midBoard w h s sts).neighbors (clickedTiles w h s sts t) [t] v ↔
      ∃ u, InRegion w h s t u ∧ v ∈ neighborIdsOf w h (u / w) (u % w) ∧ v ∉ s := by
  intro v
  constructor
  · rintro ⟨u, l, hu, hul, hvl, hmv⟩
    have hureg : InRegion w h s t u :=
      (floodReach_iff_inRegion w h t s sts hw ht hts ha hproviso u).mp hu
    rw [midBoard_nbrs w h s sts u hw] at hul
    split_ifs at hul with hc
    · cases hul
      have hvlt : v < w * h := neighborIdsOf_lt w h _ _ v hvl
      refine ⟨u, hureg, hvl, ?_⟩
      rw [clickedTiles_mine w h t s sts hw ht hts v hvlt, decide_eq_false_iff_not] at hmv
      exact hmv
  · rintro ⟨u, hureg, hvnb, hvs⟩
    obtain ⟨hult, hus, _⟩ := inRegion_facts w h t s ht hts ha u hureg
    have hvlt : v < w * h := neighborIdsOf_lt w h _ _ v hvnb
    refine ⟨u, neighborIdsOf w h (u / w) (u % w),
      (floodReach_iff_inRegion w h t s sts hw ht hts ha hproviso u).mpr hureg, ?_, hvnb, ?_⟩
    · rw [midBoard_nbrs w h s sts u hw, if_pos ⟨hult, hus⟩]
    · rw [clickedTiles_mine w h t s sts hw ht hts v hvlt]
      exact decide_eq_false hvs

theorem reveal_iff (w h t : Nat) (s : List Nat) (sts : Nat → TileStatus)
    (hw : 1 ≤ w) (ht : t < w * h) (hts : t ∉ s) (ha : specAdjCount w h s t = 0)
    (hproviso : ∀ v, InRegion w h s t v → sts v ≠ TileStatus.checked) :
    ∀ v, (v = t ∨ Newly (midBoard w h s sts).neighbors (clickedTiles w h s sts t) [t] v) ↔
      InReveal w h s t v := by
  intro v
  constructor
  · rintro (hvt | hnew)
    · subst hvt
      exact Or.inl InRegion.base
    · obtain ⟨u, hureg, hvnb, hvs⟩ :=
        (newly_iff_boundary w h t s sts hw ht hts ha hproviso v).mp hnew
      cases hcnt : specAdjCount w h s v with
      | zero => exact Or.inl (InRegion.step u v hureg hvnb hvs hcnt)
      | succ k =>
        exact Or.inr ⟨u, hureg, hvnb, hvs, by omega⟩
  · rintro (hreg | ⟨u, hureg, hvnb, hvs, _⟩)
    · cases hreg with
      | base => exact Or.inl rfl
      | step u v hu hv hm hadj =>
        exact Or.inr ((newly_iff_boundary w h t s sts hw ht hts ha hproviso v).mpr
          ⟨u, hu, hv, hm⟩)
    · exact Or.inr ((newly_iff_boundary w h t s sts hw ht hts ha hproviso v).mpr
        ⟨u, hureg, hvnb, hvs⟩)

/-- C2 (amended): clicking an Unchecked zero-adjacency non-mine tile `t` on
a mid-game board whose region is not blocked by already-Checked tiles
reveals exactly the connected zero-adjacency region of `t` plus its
boundary ring, never a mine, and changes no other status. -/
theorem c2_flood_fill_region (w h t : Nat) (s : List Nat) (sts : Nat → TileStatus)
    (hw : 1 ≤ w) (hcap : w * h + 2 ≤ MAXIMUM_ITERS)
    (ht : t < w * h) (hts : t ∉ s) (ha : specAdjCount w h s t = 0)
    (hst : sts t = TileStatus.unchecked)
    (hproviso : ∀ v, InRegion w h s t v → sts v ≠ TileStatus.checked) :
    (click_tile (midBoard w h s sts) (t : Int)).isOk = true ∧
    (∀ v, v < w * h →
      (statusAt (click_tile (midBoard w h s sts) (t : Int)).get v = TileStatus.checked ↔
        (sts v = TileStatus.checked ∨ InReveal w h s t v))) ∧
    (∀ v, v < w * h → ¬InReveal w h s t v →
      statusAt (click_tile (midBoard w h s sts) (t : Int)).get v = sts v) ∧
    (∀ v, v < w * h → v ∈ s →
      statusAt (click_tile (midBoard w h s sts) (t : Int)).get v = sts v) := by
  have hget := midBoard_release_get? w h s sts t hw ht hts
  have hadj0 : adjCode w h s t = 0 := by
    rw [adjCode_eq_spec]
    exact ha
  have hmf : ¬((clickedTile w h s sts t).mine = true) := by
    rw [show (clickedTile w h s sts t).mine = false from rfl]
    exact Bool.false_ne_true
  have hadjp : (clickedTile w h s sts t).adjacent_mines = 0 := hadj0
  have hnb : ∀ u l, nmFind (midBoard w h s sts).neighbors u = some l →
      ∀ v ∈ l, v < w * h := by
    intro u l hul v hv
    rw [midBoard_nbrs w h s sts u hw] at hul
    split_ifs at hul with hc
    cases hul
    exact neighborIdsOf_lt w h _ _ v hv
  have hfrontier : ∀ u ∈ [t], tileMineAt (clickedTiles w h s sts t) u = false ∧
      tileAdjAt (clickedTiles w h s sts t) u = 0 ∧
      tileStatusAt (clickedTiles w h s sts t) u = TileStatus.checked ∧ u < w * h := by
    intro u hu
    rw [List.mem_singleton] at hu
    subst hu
    refine ⟨?_, ?_, ?_, ht⟩
    · rw [clickedTiles_mine w h u s sts hw ht hts u ht]
      exact decide_eq_false hts
    · rw [clickedTiles_adj w h u s sts hw ht hts u ht hts]
      exact hadj0
    · rw [clickedTiles_status w h u s sts hw ht hts u ht, if_pos rfl]
  have hHN : ∀ v, v < w * h → tileMineAt (clickedTiles w h s sts t) v = false →
      ∃ l, nmFind (midBoard w h s sts).neighbors v = some l := by
    intro v hv hm
    rw [clickedTiles_mine w h t s sts hw ht hts v hv, decide_eq_false_iff_not] at hm
    rw [midBoard_nbrs w h s sts v hw, if_pos ⟨hv, hm⟩]
    exact ⟨_, rfl⟩
  have hfuel : uncheckedCount (clickedTiles w h s sts t) + 1 ≤ MAXIMUM_ITERS - 1 := by
    have h1 : uncheckedCount (clickedTiles w h s sts t) ≤ w * h := by
      calc uncheckedCount (clickedTiles w h s sts t) ≤ (clickedTiles w h s sts t).length :=
            uncheckedCount_le _
        _ = w * h := clickedTiles_length w h t s sts hw
    have h2 : MAXIMUM_ITERS = 10000000 := rfl
    omega
  obtain ⟨ts', hrun, hlen', hm', ha', hchk', hfr'⟩ :=
    floodLoop_ok (midBoard w h s sts).neighbors (w * h) hnb (MAXIMUM_ITERS - 1)
      (clickedTiles w h s sts t) [t] (clickedTiles_length w h t s sts hw)
      hfrontier hHN hfuel
  have hfz : find_zero_adjacent_neighboring_tiles
      { release_tiles (midBoard w h s sts) with tiles := clickedTiles w h s sts t } (t : Int) =
      PyResult.ok { release_tiles (midBoard w h s sts) with tiles := ts' } := by
    unfold find_zero_adjacent_neighboring_tiles
    have e1 : ({ release_tiles (midBoard w h s sts) with
        tiles := clickedTiles w h s sts t } : Board).neighbors =
        (midBoard w h s sts).neighbors := rfl
    have e2 : ({ release_tiles (midBoard w h s sts) with
        tiles := clickedTiles w h s sts t } : Board).tiles =
        clickedTiles w h s sts t := rfl
    have e3 : ([(t : Int)] : List Int) = [t].map (fun n => (n : Int)) := rfl
    rw [e1, e2, e3, floodLoopI_natCast, hrun]
    rfl
  have hpy : pyIdx (release_tiles (midBoard w h s sts)).tiles.length (t : Int) = some t := by
    rw [release_tiles_length, midBoard_length w h s sts hw]
    exact pyIdx_nat _ _ ht
  have hclick : click_tile (midBoard w h s sts) (t : Int) =
      PyResult.ok (check_validity { release_tiles (midBoard w h s sts) with tiles := ts' }) := by
    simp only [click_tile, hpy, hget]
    rw [if_neg hmf, if_pos hadjp]
    rw [show (release_tiles (midBoard w h s sts)).tiles.set t
        { clickedTile w h s sts t with status := TileStatus.checked } =
        clickedTiles w h s sts t from rfl]
    rw [hfz]
  have hres : ∀ v, statusAt (click_tile (midBoard w h s sts) (t : Int)).get v =
      tileStatusAt ts' v := by
    intro v
    rw [hclick]
    show tileStatusAt (check_validity { release_tiles (midBoard w h s sts) with
      tiles := ts' }).tiles v = tileStatusAt ts' v
    rw [check_validity_tiles]
  have hrev := reveal_iff w h t s sts hw ht hts ha hproviso
  refine ⟨by rw [hclick]; rfl, ?_, ?_, ?_⟩
  · intro v hv
    rw [hres v, hchk' v, clickedTiles_status w h t s sts hw ht hts v hv]
    constructor
    · rintro (hc | hnew)
      · by_cases hvt : v = t
        · exact Or.inr ((hrev v).mp (Or.inl hvt))
        · rw [if_neg hvt] at hc
          exact Or.inl hc
      · exact Or.inr ((hrev v).mp (Or.inr hnew))
    · rintro (hc | hrv)
      · by_cases hvt : v = t
        · rw [if_pos hvt]
          exact Or.inl rfl
        · rw [if_neg hvt]
          exact Or.inl hc
      · rcases (hrev v).mpr hrv with hvt | hnew
        · rw [if_pos hvt]
          exact Or.inl rfl
        · exact Or.inr hnew
  · intro v hv hnr
    have hvt : v ≠ t := fun he => hnr ((hrev v).mp (Or.inl he))
    have hstv : tileStatusAt (clickedTiles w h s sts t) v = sts v := by
      rw [clickedTiles_status w h t s sts hw ht hts v hv, if_neg hvt]
    rw [hres v]
    by_cases hchg : tileStatusAt ts' v = tileStatusAt (clickedTiles w h s sts t) v
    · rw [hchg, hstv]
    · obtain ⟨_, hnew⟩ := hfr' v hchg
      exact absurd ((hrev v).mp (Or.inr hnew)) hnr
  · intro v hv hvs
    have hnr : ¬InReveal w h s t v := by
      rintro (hreg | ⟨u, _, _, hvm, _⟩)
      · exact (inRegion_facts w h t s ht hts ha v hreg).2.1 hvs
      · exact hvm hvs
    have hvt : v ≠ t := fun he => hts (he ▸ hvs)
    have hstv : tileStatusAt (clickedTiles w h s sts t) v = sts v := by
      rw [clickedTiles_status w h t s sts hw ht hts v hv, if_neg hvt]
    rw [hres v]
    by_cases hchg : tileStatusAt ts' v = tileStatusAt (clickedTiles w h s sts t) v
    · rw [hchg, hstv]
    · obtain ⟨_, hnew⟩ := hfr' v hchg
      exact absurd ((hrev v).mp (Or.inr hnew)) hnr

/-- C2 counterexample: on a 1-by-5 mine-free board where tile 2 is already
Checked, tile 0 satisfies all the claim's hypotheses (Unchecked, non-mine,
zero adjacency) and tile 3 lies in the connected zero-adjacency region of
tile 0, yet clicking tile 0 leaves tile 3 unrevealed: the already-Checked
tile 2 blocks the propagation, so the claim as stated (over every board)
fails. -/
theorem c2_counterexample :
    specAdjCount 5 1 [] 0 = 0 ∧
    statusAt (midBoard 5 1 []
      (fun i => if i = 2 then TileStatus.checked else TileStatus.unchecked)) 0 =
      TileStatus.unchecked ∧
    InRegion 5 1 [] 0 3 ∧
    statusAt (click_tile (midBoard 5 1 []
      (fun i => if i = 2 then TileStatus.checked else TileStatus.unchecked)) 0).get 3 ≠
      TileStatus.checked := by
  refine ⟨by decide, by decide, ?_, by decide⟩
  have h1 : InRegion 5 1 [] 0 1 :=
    InRegion.step 0 1 InRegion.base (by decide) (by decide) (by decide)
  have h2 : InRegion 5 1 [] 0 2 :=
    InRegion.step 1 2 h1 (by decide) (by decide) (by decide)
  exact InRegion.step 2 3 h2 (by decide) (by decide) (by decide)

/-- Witness for `c2_flood_fill_region` on a 1-by-3 board with its mine at
id 2 and an all-Unchecked status assignment. -/
theorem c2_flood_fill_region_witness :
    (1 ≤ 3 ∧ 3 * 1 + 2 ≤ MAXIMUM_ITERS ∧ 0 < 3 * 1 ∧ 0 ∉ [2] ∧
      specAdjCount 3 1 [2] 0 = 0) ∧
    (click_tile (midBoard 3 1 [2] (fun _ => TileStatus.unchecked)) 0).isOk = true :=
  ⟨⟨by decide, by decide, by decide, by decide, by decide⟩,
    (c2_flood_fill_region 3 1 0 [2] (fun _ => TileStatus.unchecked) (by decide) (by decide)
      (by decide) (by decide) (by decide) rfl (fun v _ hc => TileStatus.noConfusion hc)).1⟩
